import Mathlib

/-!
# A verification development for the pg_lupa log-understanding pipeline

This file gives a shallow embedding, in Lean 4, of the core of
`pg_lupa/lupa.py` (and the colour-hashing fallback of
`pglogviz/pglogviz.py`): the log-line-prefix format compiler, the
compiled matchers, prefix resolution, payload decoding (duration and
lock-wait lines), continuation-line merging, marker classification, the
full `parse_postgres_lines` ingestion pass, and the colour machinery.

Python strings are embedded as `List Char`; Python exceptions as an
explicit `Except PyErr` monad whose error values carry the offending
text structurally (rather than the full formatted message); `datetime`
values as an absolute microsecond count paired with an awareness flag;
the regular expressions built by `_make_prefix_regex` as an abstract
syntax tree of the exact atoms the builder emits, matched by a
backtracking matcher with the leftmost-greedy preference order of
Python's `re`.  Functions keep their source names where Lean's lexical
rules allow.
-/

namespace PgLupa

/-- Python strings, embedded as lists of characters. -/
abbrev Str := List Char

/-- The characters `str.strip()` removes (ASCII whitespace as Python sees it). -/
def pyIsSpace (c : Char) : Bool :=
  c = ' ' ∨ c = '\t' ∨ c = '\n' ∨ c = '\r' ∨ c = '\x0b' ∨ c = '\x0c'

/-- `s.strip()`: remove leading and trailing whitespace. -/
def pyStrip (s : Str) : Str :=
  ((s.dropWhile pyIsSpace).reverse.dropWhile pyIsSpace).reverse

/-- `s.strip(".")`: remove leading and trailing period characters. -/
def pyStripDots (s : Str) : Str :=
  ((s.dropWhile (· = '.')).reverse.dropWhile (· = '.')).reverse

/-- Decimal digit test, as the regex class `[0-9]`. -/
def isDigit (c : Char) : Bool := '0' ≤ c ∧ c ≤ '9'

/-- The regex class `[A-Za-z]`. -/
def isAsciiAlpha (c : Char) : Bool := ('A' ≤ c ∧ c ≤ 'Z') ∨ ('a' ≤ c ∧ c ≤ 'z')

/-- The regex class `[A-Za-z0-9_-]` used for usernames and database names. -/
def isWordChar (c : Char) : Bool := isAsciiAlpha c ∨ isDigit c ∨ c = '_' ∨ c = '-'

/-- Numeric value of a digit character. -/
def digitVal (c : Char) : ℕ := c.toNat - '0'.toNat

/-- Value of a digit string read in base 10. -/
def natOfDigits (s : Str) : ℕ :=
  s.foldl (fun acc c => acc * 10 + digitVal c) 0

/-- Python exceptions, carried structurally: each constructor keeps the
text that matters for diagnosis rather than the formatted message. -/
inductive PyErr : Type
  /-- `ValueError`, carrying the offending text. -/
  | valueError (text : Str)
  /-- `RuntimeError`, carrying the offending text. -/
  | runtimeError (text : Str)
  /-- The per-record rewrap of `parse_postgres_lines`: 1-based index,
  raw record text, and the exception being wrapped. -/
  | lineError (idx : ℕ) (text : Str) (cause : PyErr)
  /-- An `IndexError` from indexing an empty list. -/
  | indexError
  /-- A failed `assert`. -/
  | assertionError
  /-- A pydantic validation error (a required field received `None`). -/
  | validationError
deriving DecidableEq

/-- A Python `int(...)` call on a string: strip whitespace, optional
sign, then at least one digit; anything else raises `ValueError`. -/
def pyInt (s : Str) : Except PyErr ℤ :=
  match pyStrip s with
  | [] => .error (.valueError s)
  | '+' :: rest =>
      if rest ≠ [] ∧ rest.all isDigit then .ok (natOfDigits rest) else .error (.valueError s)
  | '-' :: rest =>
      if rest ≠ [] ∧ rest.all isDigit then .ok (-(natOfDigits rest : ℤ)) else .error (.valueError s)
  | t =>
      if t.all isDigit then .ok (natOfDigits t) else .error (.valueError s)

/-- `full_entry.splitlines()[0]` (`get_first_line`): the text up to the
first line break; an `IndexError` on the empty string, whose
`splitlines()` is the empty list. -/
def get_first_line (s : Str) : Except PyErr Str :=
  match s with
  | [] => .error .indexError
  | _ => .ok (s.takeWhile (fun c => c ≠ '\n' ∧ c ≠ '\r'))

/-- A `datetime.datetime` value: the microsecond count is absolute (UTC)
for timezone-aware values and wall-clock for naive ones.  Python never
compares a naive value equal to an aware one. -/
structure DT : Type where
  micros : ℤ
  aware : Bool
deriving DecidableEq

/-- Python `==` on datetimes: naive and aware values always differ;
values of the same kind compare by instant (wall-clock when naive). -/
def pyEqDT (a b : DT) : Bool := a.aware = b.aware ∧ a.micros = b.micros

/-- The sentinel `datetime.datetime(1970, 1, 1)`: naive midnight at the epoch. -/
def sentinelDT : DT := ⟨0, false⟩

/-- Cumulative days before month `m` in a non-leap year. -/
def cumDaysBeforeMonth (m : ℤ) : ℤ :=
  if m ≤ 1 then 0 else if m = 2 then 31 else if m = 3 then 59
  else if m = 4 then 90 else if m = 5 then 120 else if m = 6 then 151
  else if m = 7 then 181 else if m = 8 then 212 else if m = 9 then 243
  else if m = 10 then 273 else if m = 11 then 304 else 334

/-- Gregorian leap-year test. -/
def isLeapYear (y : ℤ) : Bool := (y % 4 = 0 ∧ y % 100 ≠ 0) ∨ y % 400 = 0

/-- Proleptic-Gregorian ordinal of a date, as Python's
`datetime.date.toordinal` (0001-01-01 is day 1). -/
def toOrdinal (y m d : ℤ) : ℤ :=
  365 * (y - 1) + (y - 1) / 4 - (y - 1) / 100 + (y - 1) / 400
    + cumDaysBeforeMonth m + (if 2 < m ∧ isLeapYear y then 1 else 0) + d

/-- Days between a date and the epoch 1970-01-01 (whose ordinal is 719163). -/
def daysSinceEpoch (y m d : ℤ) : ℤ := toOrdinal y m d - 719163

/-- Wall-clock microseconds of a date-time, counted from the epoch. -/
def naiveMicros (y m d h mi s frac : ℤ) : ℤ :=
  (daysSinceEpoch y m d * 86400 + h * 3600 + mi * 60 + s) * 1000000 + frac

/-- Microseconds a fraction-of-second digit string denotes: the first six
digits, padded with zeros on the right. -/
def fracMicros (ds : Str) : ℤ :=
  (natOfDigits (ds.take 6) * 10 ^ (6 - ds.length) : ℕ)

/-- Take exactly `n` digit characters off the front, returning their value. -/
def takeDigits (n : ℕ) (s : Str) : Option (ℤ × Str) :=
  let ds := s.take n
  if ds.length = n ∧ ds.all isDigit then some ((natOfDigits ds : ℤ), s.drop n) else none

/-- Expect a literal character off the front. -/
def takeLit (c : Char) (s : Str) : Option Str :=
  match s with
  | c' :: rest => if c' = c then some rest else none
  | [] => none

/-- Timezone suffixes: either an attached `+HH:MM` / `-HH:MM` offset, a
blank followed by a recognized name, or nothing (a naive value).  The
recognized names model what `dateutil` accepts by default; an unknown
name is a parse error, as `dateutil` raises on it. -/
def parseTzSuffix (s : Str) : Except PyErr (Option ℤ) :=
  match s with
  | [] => .ok none
  | '+' :: rest => do
      let some (h, r1) := takeDigits 2 rest | .error (.valueError s)
      let some r2 := takeLit ':' r1 | .error (.valueError s)
      let some (m, r3) := takeDigits 2 r2 | .error (.valueError s)
      if r3 = [] then .ok (some (h * 3600 + m * 60)) else .error (.valueError s)
  | '-' :: rest => do
      let some (h, r1) := takeDigits 2 rest | .error (.valueError s)
      let some r2 := takeLit ':' r1 | .error (.valueError s)
      let some (m, r3) := takeDigits 2 r2 | .error (.valueError s)
      if r3 = [] then .ok (some (-(h * 3600 + m * 60))) else .error (.valueError s)
  | ' ' :: name =>
      if name = "UTC".data ∨ name = "GMT".data ∨ name = "Z".data then .ok (some 0)
      else .error (.valueError s)
  | _ => .error (.valueError s)

/-- The scan behind `replaceAll`, structurally recursive on a fuel
argument so that it evaluates inside the kernel: each step consumes at
least one character, so any fuel of at least the string's length gives
the replacement semantics (the zero-fuel arm is never reached then). -/
def replaceAllFuel (pat sub : Str) : ℕ → Str → Str
  | 0, s => s
  | _ + 1, [] => []
  | n + 1, c :: rest =>
      if pat ≠ [] ∧ pat.isPrefixOf (c :: rest) then
        sub ++ replaceAllFuel pat sub n (rest.drop (pat.length - 1))
      else
        c :: replaceAllFuel pat sub n rest

/-- Replace every occurrence of `pat` (non-empty) in `s` by `sub`, as
Python `str.replace`. -/
def replaceAll (pat sub : Str) (s : Str) : Str := replaceAllFuel pat sub s.length s

/-- The date-time grammar the prefix timestamps use, as `dateutil`
reads them: `YYYY-MM-DD HH:MM:SS`, an optional `.`-fraction, then an
optional timezone suffix. -/
def parseDatetimeCore (s : Str) : Except PyErr DT := do
  let some (y, r1) := takeDigits 4 s | .error (.valueError s)
  let some r2 := takeLit '-' r1 | .error (.valueError s)
  let some (mo, r3) := takeDigits 2 r2 | .error (.valueError s)
  let some r4 := takeLit '-' r3 | .error (.valueError s)
  let some (d, r5) := takeDigits 2 r4 | .error (.valueError s)
  let some r6 := takeLit ' ' r5 | .error (.valueError s)
  let some (h, r7) := takeDigits 2 r6 | .error (.valueError s)
  let some r8 := takeLit ':' r7 | .error (.valueError s)
  let some (mi, r9) := takeDigits 2 r8 | .error (.valueError s)
  let some r10 := takeLit ':' r9 | .error (.valueError s)
  let some (se, r11) := takeDigits 2 r10 | .error (.valueError s)
  let (frac, r12) :=
    match r11 with
    | '.' :: t =>
        if (t.takeWhile isDigit) ≠ [] then
          (fracMicros (t.takeWhile isDigit), t.dropWhile isDigit)
        else ((0 : ℤ), r11)
    | _ => ((0 : ℤ), r11)
  let tz ← parseTzSuffix r12
  match tz with
  | none => .ok ⟨naiveMicros y mo d h mi se frac, false⟩
  | some off => .ok ⟨naiveMicros y mo d h mi se frac - off * 1000000, true⟩

/-- `parse_timestamp`: rewrite a trailing ` CEST` / ` CET` into an
explicit offset, then parse (the parsing itself models the external
`dateutil.parser.parse` on the grammar these timestamps use). -/
def parse_timestamp (s : Str) : Except PyErr DT :=
  let s1 := if " CEST".data.isSuffixOf s then replaceAll " CEST".data "+02:00".data s else s
  let s2 := if " CET".data.isSuffixOf s1 then replaceAll " CET".data "+01:00".data s1 else s1
  parseDatetimeCore s2

/-! ## The log-line-prefix format compiler (`_make_prefix_regex`)

The Python builder emits a regex string from a fixed table of atoms; the
embedding builds the same pattern as an abstract syntax tree whose atoms
carry the exact fragment semantics (`[0-9]+`, `[A-Za-z0-9_-]+`, `.+`,
the timestamp composite, literal characters, and the single optional
`(?: ... )?` section a `%q` opens, closed at the end of the pattern). -/

/-- The recognized capture-group names (`handlers` keys in
`_make_prefix_parser_from_regex`). -/
inductive GName : Type
  | timestamp | pid | logLineNo | username | database | applicationName
deriving DecidableEq

/-- The capture patterns the builder emits for a group. -/
inductive GPat : Type
  /-- `[0-9]+` (pid, log line number). -/
  | digitsPlus
  /-- `[A-Za-z0-9_-]+` (username, database). -/
  | wordPlus
  /-- `.+` (application name). -/
  | anyPlus
  /-- The timestamp composite
  `[0-9]{4}-[0-9]{2}-[0-9]{2} [0-9]{2}:[0-9]{2}:[0-9]{2}(?:[.][0-9]+)? [A-Za-z]+`. -/
  | tsPat
deriving DecidableEq

/-- One atom of the compiled pattern. -/
inductive Atom : Type
  | lit (c : Char)
  | group (g : GName) (p : GPat)
deriving DecidableEq

/-- The compiled pattern: a mandatory part and, when a `%q` occurred,
an optional part extending to the end (the pattern is anchored at both
ends). -/
structure Ast : Type where
  pre : List Atom
  tail : Option (List Atom)
deriving DecidableEq

/-- Append an atom to the pattern under construction (after a `%q` it
lands inside the optional section, which runs to the end). -/
def pushAtom (st : Ast) (a : Atom) : Ast :=
  match st.tail with
  | some t => ⟨st.pre, some (t ++ [a])⟩
  | none => ⟨st.pre ++ [a], st.tail⟩

/-- The `percent_codes` table: what each formatting code appends.  `%q`
opens the optional section (it cannot occur twice: the duplicate check
fires first), `%%` appends a literal percent sign. -/
def applyCode (st : Ast) (c : Char) : Ast :=
  if c = 't' ∨ c = 'm' then pushAtom st (.group .timestamp .tsPat)
  else if c = 'p' then pushAtom st (.group .pid .digitsPlus)
  else if c = 'u' then pushAtom st (.group .username .wordPlus)
  else if c = 'd' then pushAtom st (.group .database .wordPlus)
  else if c = 'l' then pushAtom st (.group .logLineNo .digitsPlus)
  else if c = 'a' then pushAtom st (.group .applicationName .anyPlus)
  else if c = 'q' then (match st.tail with | some _ => st | none => ⟨st.pre, some []⟩)
  else pushAtom st (.lit '%')

/-- The keys of the `percent_codes` table. -/
def knownCodes : List Char := ['t', 'm', 'p', 'u', 'd', 'l', 'a', 'q', '%']

/-- The character scan of `_make_prefix_regex`: the `Bool` is the
"currently expecting a percent code" mode (`process_letter`), the list
the `already_used_percent_codes` set.  A repeated code other than `%`
and an unknown code raise `ValueError` (duplicate check first, as in
`consume_percent_code`); the scan returns the pattern and the used
codes. -/
def scanFormat : Str → Bool → List Char → Ast → Except PyErr (Ast × List Char)
  | [], _, used, st => .ok (st, used)
  | c :: rest, true, used, st =>
      if c ∈ used ∧ c ≠ '%' then .error (.valueError [c])
      else if c ∈ knownCodes then scanFormat rest false (c :: used) (applyCode st c)
      else .error (.valueError [c])
  | c :: rest, false, used, st =>
      if c = '%' then scanFormat rest true used st
      else scanFormat rest false used (pushAtom st (.lit c))

/-- `_make_prefix_regex`: scan the format, then require a `%p` and at
least one of `%t` / `%m`; failures carry the format string. -/
def makePrefixAst (fmt : Str) : Except PyErr Ast := do
  let (st, used) ← scanFormat fmt false [] ⟨[], none⟩
  if 'p' ∉ used then .error (.valueError fmt)
  else if 't' ∉ used ∧ 'm' ∉ used then .error (.valueError fmt)
  else .ok st

/-- The formatting codes a format string uses, read off declaratively:
every character that follows an unconsumed `%`. -/
def codesOf : Str → List Char
  | [] => []
  | c :: rest =>
      if c = '%' then
        match rest with
        | [] => []
        | c2 :: r2 => c2 :: codesOf r2
      else codesOf rest

/-! ## The compiled matcher

A backtracking matcher over the pattern atoms, with the
leftmost-greedy preference order of Python's `re`: each atom offers its
candidate match lengths in preference order (greedy quantifiers offer
the longest first), and the sequence matcher takes the first overall
success.  The optional tail is greedy: it first tries to match, then to
be absent.  The match is anchored on both sides. -/

/-- Candidate lengths of a greedy `X+` run: the maximal run length down to 1. -/
def greedyLens (p : Char → Bool) (s : Str) : List ℕ :=
  let m := (s.takeWhile p).length
  (List.range m).reverse.map (· + 1)

/-- Fixed head of the timestamp composite:
`[0-9]{4}-[0-9]{2}-[0-9]{2} [0-9]{2}:[0-9]{2}:[0-9]{2}`, 19 characters. -/
def tsFixedOk (s : Str) : Bool :=
  match s.take 19 with
  | [y1, y2, y3, y4, d1, mo1, mo2, d2, da1, da2, sp, h1, h2, c1, mi1, mi2, c2, s1, s2] =>
      isDigit y1 ∧ isDigit y2 ∧ isDigit y3 ∧ isDigit y4 ∧ d1 = '-' ∧
      isDigit mo1 ∧ isDigit mo2 ∧ d2 = '-' ∧ isDigit da1 ∧ isDigit da2 ∧
      sp = ' ' ∧ isDigit h1 ∧ isDigit h2 ∧ c1 = ':' ∧ isDigit mi1 ∧
      isDigit mi2 ∧ c2 = ':' ∧ isDigit s1 ∧ isDigit s2
  | _ => false

/-- Candidate lengths of the timestamp composite, in backtracking
preference order: the optional fraction is tried greedily (longest
fraction first, then none), and inside each choice the timezone-name
run `[A-Za-z]+` is greedy. -/
def tsCandidates (s : Str) : List ℕ :=
  if tsFixedOk s then
    let fracLens : List ℕ :=
      match s.drop 19 with
      | '.' :: r2 => (greedyLens isDigit r2).map (· + 1)
      | _ => []
    (fracLens ++ [0]).flatMap fun fl =>
      match s.drop (19 + fl) with
      | ' ' :: r4 => (greedyLens isAsciiAlpha r4).map fun al => 19 + fl + 1 + al
      | _ => []
  else []

/-- Candidate match lengths of one group pattern against a front of `s`. -/
def patCandidates (p : GPat) (s : Str) : List ℕ :=
  match p with
  | .digitsPlus => greedyLens isDigit s
  | .wordPlus => greedyLens isWordChar s
  | .anyPlus => greedyLens (fun c => c ≠ '\n') s
  | .tsPat => tsCandidates s

/-- Candidate matches of one atom: consumed length and captured group, in
preference order. -/
def atomCandidates (a : Atom) (s : Str) : List (ℕ × Option (GName × Str)) :=
  match a with
  | .lit c =>
      match s with
      | c' :: _ => if c' = c then [(1, none)] else []
      | [] => []
  | .group g p => (patCandidates p s).map fun k => (k, some (g, s.take k))

/-- Captured groups of a match attempt. -/
abbrev Caps := List (GName × Str)

/-- Backtracking sequence matcher in continuation style: try each
candidate of the head atom in preference order, matching the rest on the
remainder; the continuation decides what must hold after the sequence. -/
def matchSeq : List Atom → Str → Caps → (Str → Caps → Option Caps) → Option Caps
  | [], s, caps, k => k s caps
  | a :: as, s, caps, k =>
      (atomCandidates a s).findSome? fun cand =>
        matchSeq as (s.drop cand.1) (caps ++ cand.2.toList) k

/-- Anchored match of a compiled pattern against a whole string,
returning the captured groups; the optional tail is greedy. -/
def matchAst (ast : Ast) (s : Str) : Option Caps :=
  matchSeq ast.pre s [] fun rest caps =>
    match ast.tail with
    | none => if rest = [] then some caps else none
    | some t =>
        (matchSeq t rest caps fun r c => if r = [] then some c else none).orElse
          fun _ => if rest = [] then some caps else none

/-! ## Applying a compiled matcher (`_make_prefix_parser_from_regex.apply`) -/

/-- `LogPrefixInfo`: the decoded prefix.  `timestamp` and `pid` are
seeded with sentinels before the capture handlers run. -/
structure LogPrefixInfo : Type where
  timestamp : DT
  pid : ℤ
  log_line_no : Option ℤ := none
  username : Option Str := none
  database : Option Str := none
  application_name : Option Str := none
deriving DecidableEq

/-- The seeded value: sentinel timestamp (naive epoch) and pid 0. -/
def initLogPrefixInfo : LogPrefixInfo := ⟨sentinelDT, 0, none, none, none, none⟩

/-- The named groups of a compiled pattern, in pattern order (the
iteration order of `compiled_regex.groupindex`). -/
def astGroupNames (ast : Ast) : List GName :=
  (ast.pre ++ ast.tail.getD []).filterMap fun a =>
    match a with
    | .group g _ => some g
    | .lit _ => none

/-- The captured string of a group, if the group matched. -/
def lookupCap (caps : Caps) (g : GName) : Option Str :=
  (caps.find? fun p => p.1 == g).map (·.2)

/-- One decode handler (`handle_timestamp`, `handle_pid`, ...): decode
the captured text into its field.  `int(...)` and timestamp parsing can
raise, and the exception propagates out of `apply`. -/
def applyHandler (g : GName) (v : Str) (info : LogPrefixInfo) :
    Except PyErr LogPrefixInfo :=
  match g with
  | .timestamp => do
      let t ← parse_timestamp v
      .ok { info with timestamp := t }
  | .pid => do
      let n ← pyInt v
      .ok { info with pid := n }
  | .logLineNo => do
      let n ← pyInt v
      .ok { info with log_line_no := some n }
  | .username => .ok { info with username := some v }
  | .database => .ok { info with database := some v }
  | .applicationName => .ok { info with application_name := some v }

/-- `apply`: anchored match (`None` on no match), then run each present
group's handler on a non-empty capture, then the defensive sentinel
checks — a still-sentinel timestamp or pid is a `RuntimeError`, distinct
from "no match". -/
def applyAst (ast : Ast) (s : Str) : Except PyErr (Option LogPrefixInfo) :=
  match matchAst ast s with
  | none => .ok none
  | some caps => do
      let info ← (astGroupNames ast).foldlM
        (fun info g =>
          match lookupCap caps g with
          | some v => if v ≠ [] then applyHandler g v info else .ok info
          | none => .ok info)
        initLogPrefixInfo
      if pyEqDT info.timestamp sentinelDT then
        .error (.runtimeError "didnt capture timestamp".data)
      else if info.pid = 0 then
        .error (.runtimeError "didnt capture pid".data)
      else .ok (some info)

/-- A prefix matcher: what `_make_prefix_parser_from_regex` returns.
Python's `None` result is `Option`; a raised exception is the error. -/
abbrev Matcher := Str → Except PyErr (Option LogPrefixInfo)

/-- The matcher of a compiled pattern. -/
def matcherOfAst (ast : Ast) : Matcher := fun s => applyAst ast s

/-- `make_prefix_parser`: compile a format to a matcher, rewrapping a
compile failure into a `ValueError` carrying the format string. -/
def makePrefixMatcher (fmt : Str) : Except PyErr Matcher :=
  match makePrefixAst fmt with
  | .ok ast => .ok (matcherOfAst ast)
  | .error _ => .error (.valueError fmt)

/-- The compiled pattern of the built-in format `%t [%p-%l] %q%u@%d`. -/
def builtinAst1 : Ast :=
  match makePrefixAst "%t [%p-%l] %q%u@%d".data with
  | .ok a => a
  | .error _ => ⟨[], none⟩

/-- The compiled pattern of the built-in format `%t [%p-%l] %q%u@%d (%a)`. -/
def builtinAst2 : Ast :=
  match makePrefixAst "%t [%p-%l] %q%u@%d (%a)".data with
  | .ok a => a
  | .error _ => ⟨[], none⟩

/-- The compiled pattern of the built-in format `%m [%p]`. -/
def builtinAst3 : Ast :=
  match makePrefixAst "%m [%p]".data with
  | .ok a => a
  | .error _ => ⟨[], none⟩

/-- `DEFAULT_LOG_PREFIX_MATCHERS`: the ordered built-in fallback matchers. -/
def DEFAULT_LOG_PREFIX_MATCHERS : List Matcher :=
  [matcherOfAst builtinAst1, matcherOfAst builtinAst2, matcherOfAst builtinAst3]

/-- The candidate loop of `parse_log_prefix`: each matcher is tried on
the raw prefix, then on its stripped form; the first non-`None` result
wins; a raised exception propagates; exhaustion raises a `ValueError`
carrying the prefix text. -/
def parseLogPrefixGo (p : Str) : List Matcher → Except PyErr LogPrefixInfo
  | [] => .error (.valueError p)
  | m :: rest => do
      match ← m p with
      | some info => .ok info
      | none =>
          match ← m (pyStrip p) with
          | some info => .ok info
          | none => parseLogPrefixGo p rest

/-- The function `parse_log_prefix`: `matchers or
DEFAULT_LOG_PREFIX_MATCHERS` — the built-in fallbacks are used exactly
when the caller's list is empty. -/
def parseLogPrefixFn (p : Str) (ms : List Matcher) : Except PyErr LogPrefixInfo :=
  parseLogPrefixGo p (if ms.isEmpty then DEFAULT_LOG_PREFIX_MATCHERS else ms)

/-! ## Payload decoding: duration lines and lock-wait lines -/

/-- `DurationLogEntry`. -/
structure DurationLogEntry : Type where
  duration_usec : ℤ
  statement : Option Str
deriving DecidableEq

/-- The numeral head `([0-9]+[.][0-9]{3})` shared by `DURATION_LINE_RE`
and `DURATION_LINE_WITHOUT_STATEMENT_RE`: the captured numeral (dot
included) and the remainder.  The match is deterministic: the digit run
cannot absorb the dot, so no backtracking alternative exists. -/
def matchDurationNumeral (s : Str) : Option (Str × Str) :=
  let ds := s.takeWhile isDigit
  if ds = [] then none
  else
    match s.drop ds.length with
    | '.' :: r2 =>
        let f3 := r2.take 3
        if f3.length = 3 ∧ f3.all isDigit then some (ds ++ '.' :: f3, r2.drop 3)
        else none
    | _ => none

/-- The microsecond count: delete the decimal point from the captured
numeral and read the digits as an integer (`group(1).replace(".", "")`
then `int`). -/
def usecOfNumeral (numeral : Str) : ℤ :=
  (natOfDigits (numeral.filter (· ≠ '.')) : ℤ)

/-- `parse_duration_log_line`: first physical line, stripped; try
`DURATION_LINE_RE` (`^([0-9]+[.][0-9]{3}) ms +statement:(.*)$`), then
`DURATION_LINE_WITHOUT_STATEMENT_RE` (`^([0-9]+[.][0-9]{3}) ms$`);
anything else raises `RuntimeError` carrying the offending text. -/
def parse_duration_log_line (line : Str) : Except PyErr DurationLogEntry := do
  let fl ← get_first_line line
  let s := pyStrip fl
  match matchDurationNumeral s with
  | some (numeral, rest) =>
      match rest with
      | ' ' :: 'm' :: 's' :: r3 =>
          let sp := r3.takeWhile (· = ' ')
          let r4 := r3.drop sp.length
          if sp ≠ [] ∧ "statement:".data.isPrefixOf r4 then
            .ok ⟨usecOfNumeral numeral, some (r4.drop 10)⟩
          else if r3 = [] then .ok ⟨usecOfNumeral numeral, none⟩
          else .error (.runtimeError s)
      | _ => .error (.runtimeError s)
  | none => .error (.runtimeError s)

/-- `HoldingLockLogEntry`. -/
structure HoldingLockLogEntry : Type where
  holding_lock_pid : ℤ
  wait_queue_pid : List ℤ
deriving DecidableEq

/-- Index of the first occurrence of `pat` in `s`, if any. -/
def findOcc (pat : Str) : Str → Option ℕ
  | [] => if pat.isPrefixOf [] then some 0 else none
  | c :: t =>
      if pat.isPrefixOf (c :: t) then some 0
      else (findOcc pat t).map (· + 1)

/-- Python's `in` test for substrings. -/
def pyContains (s pat : Str) : Bool := (findOcc pat s).isSome

/-- `parse_holding_lock_log_line`: first physical line, stripped of
whitespace and periods, split on the first `". Wait queue: "` (both
sides empty-splitting as Python `partition` does), holder pid from the
left, wait queue from the comma-split right with empty pieces dropped. -/
def parse_holding_lock_log_line (s : Str) : Except PyErr HoldingLockLogEntry := do
  let fl ← get_first_line s
  let t := pyStripDots (pyStrip fl)
  let sep := ". Wait queue: ".data
  let pieces :=
    match findOcc sep t with
    | some i => (t.take i, t.drop (i + sep.length))
    | none => (t, [])
  let holder ← pyInt pieces.1
  let queue ← ((pieces.2.splitOn ',').filter (· ≠ [])).mapM pyInt
  .ok ⟨holder, queue⟩

/-! ## The timeline data model -/

/-- `Statement`. -/
structure Statement : Type where
  start_time : DT
  end_time : DT
  context : LogPrefixInfo
  pid : ℤ
  log_line_no : ℤ
  statement : Str
  duration : ℚ
deriving DecidableEq

/-- `EventType`. -/
inductive EventType : Type
  | disconnect | authorized | deadlock | waitingForLock | analyze | vacuum
deriving DecidableEq

/-- `Event`. -/
structure Event : Type where
  time : DT
  pid : ℤ
  context : LogPrefixInfo
  event_type : EventType
  description : Option Str := none
  primary_related_pids : List ℤ := []
  secondary_related_pids : List ℤ := []
deriving DecidableEq

/-- `Process`. -/
structure Process : Type where
  pid : ℤ
  first_appearance : DT
deriving DecidableEq

/-- `LogLine`: one (possibly continuation-merged) record, with an
optional external timestamp. -/
structure LogLine : Type where
  timestamp : Option DT := none
  line : Str
deriving DecidableEq

/-- `Model`: the terminal artifact of ingestion. -/
structure Model : Type where
  processes : List Process
  statements : List Statement
  events : List Event
  start_time : DT
  end_time : DT
deriving DecidableEq

/-- `create_statement`: the statement ends at the context timestamp and
starts one duration earlier; pydantic rejects a `None` log line number
(the `Statement.log_line_no` field is a required `int`). -/
def create_statement (context : LogPrefixInfo) (entry : DurationLogEntry) :
    Except PyErr Statement :=
  match context.log_line_no with
  | none => .error .validationError
  | some ll =>
      .ok
        { start_time := ⟨context.timestamp.micros - entry.duration_usec, context.timestamp.aware⟩
          end_time := context.timestamp
          context := context
          pid := context.pid
          log_line_no := ll
          statement := entry.statement.getD []
          duration := (entry.duration_usec : ℚ) / 1000000 }

/-! ## The ingestion pass (`parse_postgres_lines`) -/

/-- The mutable aggregation state of one ingestion pass:
`stmts_by_process` and `pids_by_first_seen` are insertion-ordered
association lists (Python dicts), `timestamp_minmax` the running global
span (`None` models the empty two-slot list). -/
structure ParseState : Type where
  stmts_by_process : List (ℤ × List Statement) := []
  events : List Event := []
  pids_by_first_seen : List (ℤ × DT) := []
  timestamp_minmax : Option (DT × DT) := none
deriving DecidableEq

/-- Replace the value at a key of an association list, in place. -/
def assocSet (m : List (ℤ × DT)) (k : ℤ) (v : DT) : List (ℤ × DT) :=
  m.map fun p => if p.1 = k then (k, v) else p

/-- `saw_pid_at`: record a pid at a timestamp, keeping the minimum
first-seen time per pid (and the dict's insertion order). -/
def saw_pid_at (st : ParseState) (pid : ℤ) (t : DT) : ParseState :=
  match List.lookup pid st.pids_by_first_seen with
  | none => { st with pids_by_first_seen := st.pids_by_first_seen ++ [(pid, t)] }
  | some old =>
      if t.micros < old.micros then
        { st with pids_by_first_seen := assocSet st.pids_by_first_seen pid t }
      else st

/-- Append a statement to its pid's bucket (`stmts_by_process` is a
`defaultdict(list)`). -/
def appendStmt (st : ParseState) (stmt : Statement) : ParseState :=
  match List.lookup stmt.pid st.stmts_by_process with
  | none => { st with stmts_by_process := st.stmts_by_process ++ [(stmt.pid, [stmt])] }
  | some _ =>
      { st with
        stmts_by_process :=
          st.stmts_by_process.map fun p =>
            if p.1 = stmt.pid then (p.1, p.2 ++ [stmt]) else p }

/-- `handle_duration`: decode the payload, build the statement, assert a
non-zero pid, record the pid at the statement's start time, bucket the
statement. -/
def handle_duration (context : LogPrefixInfo) (core : Str) (st : ParseState) :
    Except PyErr ParseState := do
  let parsed ← parse_duration_log_line core
  let stmt ← create_statement context parsed
  if stmt.pid = 0 then .error .assertionError
  else .ok (appendStmt (saw_pid_at st stmt.pid stmt.start_time) stmt)

/-- An event with no description and no related pids, at the context's
time and pid. -/
def mkSimpleEvent (et : EventType) (context : LogPrefixInfo) : Event :=
  ⟨context.timestamp, context.pid, context, et, none, [], []⟩

/-- An analyze/vacuum event: the description is the stripped payload. -/
def mkDescribedEvent (et : EventType) (context : LogPrefixInfo) (core : Str) : Event :=
  ⟨context.timestamp, context.pid, context, et, some (pyStrip core), [], []⟩

/-- `handle_process_holding_lock`: decode the lock-wait payload, record
the holder pid and every wait-queue pid at the context time, and emit a
waiting-for-lock event whose secondary related pids are the wait queue
without the record's own pid. -/
def handle_process_holding_lock (context : LogPrefixInfo) (core : Str)
    (st : ParseState) : Except PyErr ParseState := do
  let entry ← parse_holding_lock_log_line core
  let st1 := saw_pid_at st entry.holding_lock_pid context.timestamp
  let st2 := entry.wait_queue_pid.foldl (fun s p => saw_pid_at s p context.timestamp) st1
  let weq := entry.wait_queue_pid.filter (· ≠ context.pid)
  .ok
    { st2 with
      events :=
        st2.events ++
          [⟨context.timestamp, context.pid, context, .waitingForLock, none,
            [entry.holding_lock_pid], weq⟩] }

/-- The marker kinds, in the `dispatch` table's order. -/
inductive MarkerKind : Type
  | duration | disconnection | connectionAuthorized | processHoldingLock
  | deadlockDetected | automaticAnalyze | automaticVacuum
deriving DecidableEq

/-- The `dispatch` table: the ordered marker substrings. -/
def dispatchTable : List (Str × MarkerKind) :=
  [("LOG:  duration: ".data, .duration),
   ("LOG:  disconnection: ".data, .disconnection),
   ("LOG:  connection authorized: ".data, .connectionAuthorized),
   ("DETAIL:  Process holding the lock: ".data, .processHoldingLock),
   ("ERROR:  deadlock detected".data, .deadlockDetected),
   ("LOG:  automatic analyze of ".data, .automaticAnalyze),
   ("LOG:  automatic vacuum of ".data, .automaticVacuum)]

/-- The marker scan of `try_parse` over an arbitrary table: the first
table entry whose marker occurs anywhere in the text wins, and the text
is split at the marker's first occurrence (`str.partition`). -/
def classifyWith (tbl : List (Str × MarkerKind)) (text : Str) :
    Option (MarkerKind × Str × Str) :=
  tbl.findSome? fun e =>
    match findOcc e.1 text with
    | some i => some (e.2, text.take i, text.drop (i + e.1.length))
    | none => none

/-- The marker scan of `try_parse`, over the `dispatch` table. -/
def classifyRecord (text : Str) : Option (MarkerKind × Str × Str) :=
  classifyWith dispatchTable text

/-- Dispatch one classified record to its handler. -/
def runHandler (k : MarkerKind) (context : LogPrefixInfo) (core : Str)
    (st : ParseState) : Except PyErr ParseState :=
  match k with
  | .duration => handle_duration context core st
  | .disconnection => .ok { st with events := st.events ++ [mkSimpleEvent .disconnect context] }
  | .connectionAuthorized => .ok { st with events := st.events ++ [mkSimpleEvent .authorized context] }
  | .processHoldingLock => handle_process_holding_lock context core st
  | .deadlockDetected => .ok { st with events := st.events ++ [mkSimpleEvent .deadlock context] }
  | .automaticAnalyze => .ok { st with events := st.events ++ [mkDescribedEvent .analyze context core] }
  | .automaticVacuum => .ok { st with events := st.events ++ [mkDescribedEvent .vacuum context core] }

/-- Python `min` of two datetimes (first argument on ties). -/
def pyMinDT (a b : DT) : DT := if a.micros ≤ b.micros then a else b

/-- Python `max` of two datetimes (first argument on ties). -/
def pyMaxDT (a b : DT) : DT := if b.micros ≤ a.micros then a else b

/-- The `timestamp_minmax` update of `try_parse`: seed the two-slot list
on first use, then widen both ends. -/
def widenMM (mm : Option (DT × DT)) (ts : DT) : Option (DT × DT) :=
  match mm with
  | none => some (ts, ts)
  | some (a, b) => some (pyMinDT a ts, pyMaxDT b ts)

/-- `try_parse`: find the first marker (a record with none is silently
skipped), resolve the prefix, override the timestamp with the record's
external one if present, widen the global span, record the pid, and run
the marker's handler. -/
def try_parse (ms : List Matcher) (line : LogLine) (st : ParseState) :
    Except PyErr ParseState :=
  match classifyRecord line.line with
  | none => .ok st
  | some (k, pre, core) => do
      let ctx0 ← parseLogPrefixFn pre ms
      let context :=
        match line.timestamp with
        | some t => { ctx0 with timestamp := t }
        | none => ctx0
      let st1 :=
        { st with
          timestamp_minmax := widenMM st.timestamp_minmax context.timestamp }
      let st2 := saw_pid_at st1 context.pid context.timestamp
      runHandler k context core st2

/-- The record loop of `parse_postgres_lines`: any exception while
processing record `i` is rewrapped with the 1-based index and the raw
text. -/
def runLogLines (ms : List Matcher) : List LogLine → ℕ → ParseState → Except PyErr ParseState
  | [], _, st => .ok st
  | l :: rest, i, st =>
      match try_parse ms l st with
      | .ok st' => runLogLines ms rest (i + 1) st'
      | .error e => .error (.lineError i l.line e)

/-- `parse_postgres_lines`, over an already-built prefix-matcher list:
run every record, then assemble the model — flattened per-pid statement
buckets, events in encounter order, one process per first-seen pid, and
the global span; indexing the empty span list raises `IndexError`. -/
def parse_postgres_lines (lines : List LogLine) (ms : List Matcher) :
    Except PyErr Model := do
  let st ← runLogLines ms lines 1 {}
  match st.timestamp_minmax with
  | none => .error .indexError
  | some (t0, t1) =>
      .ok
        { statements := st.stmts_by_process.flatMap (·.2)
          events := st.events
          processes := st.pids_by_first_seen.map fun p => ⟨p.1, p.2⟩
          start_time := t0
          end_time := t1 }

/-- The matcher assembly at the head of `parse_postgres_lines`: an
explicit (non-empty) format string compiles to a matcher, and an
explicit raw-regex matcher (here already compiled, its group-name check
being part of construction) is appended after it. -/
def buildPrefixMatchers (fmtOpt : Option Str) (regexMatcher : Option Matcher) :
    Except PyErr (List Matcher) := do
  let ms1 ←
    match fmtOpt with
    | some f => if f ≠ [] then do let m ← makePrefixMatcher f; pure [m] else pure []
    | none => pure []
  pure (ms1 ++ regexMatcher.toList)

/-! ## Continuation-line merging (`merge_continuation_lines`) -/

/-- A record whose text begins with a tab (`line.startswith("\\t")`). -/
def isTabLine (x : LogLine) : Bool :=
  match x.line with
  | '\t' :: _ => true
  | _ => false

/-- The merge loop: `last` is the record being accumulated.  A record
starting with a tab is appended — newline-joined, tab retained — to the
accumulated record, and orphaned continuations (no predecessor) raise
`RuntimeError`; at the end the accumulated record, if any, is emitted. -/
def mergeGo : Option LogLine → List LogLine → Except PyErr (List LogLine)
  | last, [] => .ok (match last with | none => [] | some x => [x])
  | last, l :: rest =>
      if isTabLine l then
        match last with
        | none => .error (.runtimeError l.line)
        | some x => mergeGo (some ⟨x.timestamp, x.line ++ '\n' :: l.line⟩) rest
      else
        match last with
        | none => mergeGo (some l) rest
        | some x => do
            let r ← mergeGo (some l) rest
            .ok (x :: r)

/-- `merge_continuation_lines`. -/
def merge_continuation_lines (lines : List LogLine) : Except PyErr (List LogLine) :=
  mergeGo none lines

/-! ## Colour assignment

`hash_as_colour` (pglogviz) seeds a pseudo-random generator from the
classification key and converts a drawn hue to an RGB triple; the
generator itself (Python's Mersenne Twister seeded via SHA-512 of the
key) is abstracted as the stream of values `rng.random()` would
produce, so the function is embedded over that stream.  The contrast
formula (`contrast_ratio_with_white` in lupa) computes over Python
floats; it is embedded over the reals. -/

/-- Python `int(...)` on a rational: truncation toward zero. -/
def pytruncQ (x : ℚ) : ℤ := if 0 ≤ x then ⌊x⌋ else ⌈x⌉

/-- `colorsys.hsv_to_rgb`, over rationals.  The final branch cannot be
reached (`i % 6` lies in `0..5`); Python would fall through to `None`
there. -/
def hsv_to_rgb (h s v : ℚ) : ℚ × ℚ × ℚ :=
  if s = 0 then (v, v, v)
  else
    let i0 := pytruncQ (h * 6)
    let f := h * 6 - i0
    let p := v * (1 - s)
    let q := v * (1 - s * f)
    let t := v * (1 - s * (1 - f))
    let i := i0 % 6
    if i = 0 then (v, t, p)
    else if i = 1 then (q, v, p)
    else if i = 2 then (p, v, t)
    else if i = 3 then (p, q, t)
    else if i = 4 then (t, p, v)
    else if i = 5 then (q, p, v)
    else (0, 0, 0)

/-- `int(x * 255)`. -/
def scaleChannel (x : ℚ) : ℤ := pytruncQ (x * 255)

/-- The RGB triple of a hue at full saturation and value, scaled to `0..255`. -/
def colourOfHue (h : ℚ) : ℤ × ℤ × ℤ :=
  let c := hsv_to_rgb h 1 1
  (scaleChannel c.1, scaleChannel c.2.1, scaleChannel c.2.2)

/-- An uppercase hexadecimal digit. -/
def hexDigit (n : ℕ) : Char :=
  if n < 10 then Char.ofNat ('0'.toNat + n) else Char.ofNat ('A'.toNat + (n - 10))

/-- `"{:02X}".format(x)` for `0 ≤ x ≤ 255`. -/
def hex2 (n : ℤ) : Str := [hexDigit (n.toNat / 16 % 16), hexDigit (n.toNat % 16)]

/-- `hash_as_colour` up to the drawn hue: the generator seeded from the
key is abstracted as its stream of draws; exactly one draw is consumed
(`hue = rng.random()`), and the triple is the hue's RGB at full
saturation and value. -/
def hash_as_colour_rgb (draws : ℕ → ℚ) : ℤ × ℤ × ℤ := colourOfHue (draws 0)

/-- `hash_as_colour`: the hex-string form of the single drawn hue's colour. -/
def hash_as_colour (draws : ℕ → ℚ) : Str :=
  let c := hash_as_colour_rgb draws
  '#' :: (hex2 c.1 ++ hex2 c.2.1 ++ hex2 c.2.2)

/-- The channel linearization inside `contrast_ratio_with_white`:
`x/3294` for `x ≤ 10`, else `((x/269) + 0.0513) ** 2.4`, over the reals. -/
noncomputable def contrastF (x : ℤ) : ℝ :=
  if x ≤ 10 then (x : ℝ) / 3294 else ((x : ℝ) / 269 + 513 / 10000) ^ ((12 : ℝ) / 5)

/-- `relative_luminosity`. -/
noncomputable def relative_luminosity (r g b : ℤ) : ℝ :=
  0.2126 * contrastF r + 0.7152 * contrastF g + 0.0722 * contrastF b

/-- `contrast_ratio_with_white`. -/
noncomputable def contrast_ratio_with_white (rgb : ℤ × ℤ × ℤ) : ℝ :=
  1 / (relative_luminosity rgb.1 rgb.2.1 rgb.2.2 + 0.05)

/-- `sufficient_contrast_with_white`: the ratio exceeds 1.5. -/
def sufficient_contrast_with_white (rgb : ℤ × ℤ × ℤ) : Prop :=
  contrast_ratio_with_white rgb > 1.5

open Classical in
/-- Modelled from the spec for comparison with `hash_as_colour_rgb`
(fallback colour mode): starting at draw `i` with `n` candidates left,
accept the first candidate hue whose colour has sufficient contrast
with white; the last candidate is used unconditionally. -/
noncomputable def hashSpecAux (draws : ℕ → ℚ) : ℕ → ℕ → ℤ × ℤ × ℤ
  | 0, i => colourOfHue (draws i)
  | 1, i => colourOfHue (draws i)
  | n + 2, i =>
      if sufficient_contrast_with_white (colourOfHue (draws i)) then colourOfHue (draws i)
      else hashSpecAux draws (n + 1) (i + 1)

/-- Modelled from the spec for comparison with `hash_as_colour_rgb`:
draw up to 100 candidate hues, accept the first with sufficient
contrast against white, else use the 100th. -/
noncomputable def hashSpecRgb (draws : ℕ → ℚ) : ℤ × ℤ × ℤ := hashSpecAux draws 100 0

/-! ## Spec-side resolution order (for claim comparison) -/

/-- Scan attempt results in order: the first non-`None` result wins, a
raised exception propagates, exhaustion is a `ValueError` carrying the
prefix text. -/
def resolveAttempts (p : Str) : List (Except PyErr (Option LogPrefixInfo)) →
    Except PyErr LogPrefixInfo
  | [] => .error (.valueError p)
  | .error e :: _ => .error e
  | .ok (some info) :: _ => .ok info
  | .ok none :: rest => resolveAttempts p rest

/-- The spec's statement of prefix resolution over a candidate list:
each candidate matcher is tried against the raw prefix, then against
its trimmed form, in candidate order. -/
def specResolve (ms : List Matcher) (p : Str) : Except PyErr LogPrefixInfo :=
  resolveAttempts p (ms.flatMap fun m => [m p, m (pyStrip p)])

/-! ## Spec-side continuation merge (for claim comparison) -/

/-- A record extended by its continuation records, newline-joined. -/
def extendLine (x : LogLine) (cont : List LogLine) : LogLine :=
  ⟨x.timestamp, x.line ++ cont.flatMap fun c => '\n' :: c.line⟩

/-- The declarative continuation merge: each maximal run of tab-prefixed
records is appended, newline-joined (tabs retained), to the non-tab
record heading it; a tab-prefixed record with no predecessor is an
error; emitted records keep input order. -/
def mergeSpec : List LogLine → Except PyErr (List LogLine)
  | [] => .ok []
  | l :: rest =>
      if isTabLine l then .error (.runtimeError l.line)
      else do
        let r ← mergeSpec (rest.dropWhile isTabLine)
        .ok (extendLine l (rest.takeWhile isTabLine) :: r)
termination_by lines => lines.length
decreasing_by
  simp only [List.length_cons]
  have := (List.dropWhile_suffix (l := rest) isTabLine).length_le
  omega

/-! ## Concrete inputs used by the claim theorems -/

/-- A raw prefix that the first built-in fallback matches (after
trimming) but the `%m [%p]` format does not. -/
def cexPrefixText : Str := "2022-05-22 10:50:43 CEST [2864876-56] foo@foo ".data

/-- An explicit format matcher, compiled from the valid format `%m [%p]`. -/
def cexExplicitMatcher : Matcher := matcherOfAst builtinAst3

/-- A single duration record: its statement starts strictly before the
record's own timestamp. -/
def cexDurationLines : List LogLine :=
  [⟨none, ("2022-05-22 10:50:43 CEST [2864876-56] foo@foo LOG:  duration: " ++
    "1074.754 ms  statement: SELECT stuff FROM mytbl WHERE x = 1").data⟩]

/-- The model the single duration record produces. -/
def cexDurationModel : Model :=
  match parse_postgres_lines cexDurationLines [] with
  | .ok m => m
  | .error _ => ⟨[], [], [], sentinelDT, sentinelDT⟩

/-- A draw stream whose first candidate hue is pure yellow (which fails
the contrast bar) and whose later candidates are pure red (which passes). -/
def cexDraws (n : ℕ) : ℚ := if n = 0 then 1 / 6 else 0

/-- A prefix line whose pid field is literally `0`: the compiled
`%m [%p]` matcher matches it, and the sentinel check then raises. -/
def cexZeroPidLine : Str := "2022-05-22 10:50:29 UTC [0]".data

/-- A well-formed prefix for the `%m [%p]` matcher (used to witness the
sentinel postcondition). -/
def witPrefixLine : Str := "2022-05-22 10:50:29.123 CEST [2929634]".data

/-- The info the `%m [%p]` matcher decodes from `witPrefixLine`. -/
def witPrefixInfo : LogPrefixInfo :=
  match applyAst builtinAst3 witPrefixLine with
  | .ok (some i) => i
  | _ => initLogPrefixInfo

/-! ## Predicates used by the theorems -/

/-- `pat` occurs somewhere inside `text` (Python's `in`). -/
def occursIn (text pat : Str) : Prop := ∃ u v, text = u ++ pat ++ v

/-- The formatting codes a partial scan still has in front of it: in
"expecting a percent code" mode the head character is itself a code. -/
def codesAt (fmt : Str) (expecting : Bool) : List Char :=
  if expecting then
    match fmt with
    | [] => []
    | c :: r => c :: codesOf r
  else codesOf fmt

/-- The condition under which the format scan succeeds: every code is
known, and no code other than `%` occurs twice (counting the codes
already consumed into `used`). -/
def scanCnd (codes used : List Char) : Prop :=
  (∀ c ∈ codes, c ∈ knownCodes) ∧
  ∀ c, c ≠ '%' → codes.count c + (if c ∈ used then 1 else 0) ≤ 1

/-- A timestamp lies within the running global span (vacuous while the
span is unset). -/
def inSpan (mm : Option (DT × DT)) (t : DT) : Prop :=
  ∀ a b, mm = some (a, b) → a.micros ≤ t.micros ∧ t.micros ≤ b.micros

/-- A pid has been recorded in the first-seen map. -/
def pidKnown (st : ParseState) (q : ℤ) : Prop :=
  (List.lookup q st.pids_by_first_seen).isSome = true

/-- The invariant the ingestion state maintains: every bucketed
statement's pid and every event's pid (related pids included) is in the
first-seen map, their timestamps lie in the running span, the map's
keys are distinct, and nothing has been emitted while the span is
unset. -/
def StInv (st : ParseState) : Prop :=
  (∀ pe ∈ st.stmts_by_process, ∀ s ∈ pe.2,
      pidKnown st s.pid ∧ inSpan st.timestamp_minmax s.end_time) ∧
  (∀ e ∈ st.events,
      pidKnown st e.pid ∧
      (∀ q ∈ e.primary_related_pids ++ e.secondary_related_pids, pidKnown st q) ∧
      inSpan st.timestamp_minmax e.time) ∧
  (st.pids_by_first_seen.map Prod.fst).Nodup ∧
  (st.timestamp_minmax = none → st.events = [] ∧ st.stmts_by_process = [])

/-! ## Lemmas about the first-seen map -/

lemma lookup_cons (q k : ℤ) (v : DT) (m : List (ℤ × DT)) :
    List.lookup q ((k, v) :: m) = if q = k then some v else List.lookup q m := by
  by_cases h : q = k
  · simp [List.lookup, h]
  · have hb : (q == k) = false := beq_eq_false_iff_ne.mpr h
    simp [List.lookup, hb, h]

lemma lookup_append (q : ℤ) (xs ys : List (ℤ × DT)) :
    List.lookup q (xs ++ ys) = ((List.lookup q xs).orElse fun _ => List.lookup q ys) := by
  induction xs with
  | nil => simp [List.lookup, Option.orElse]
  | cons a xs ih =>
      obtain ⟨k, v⟩ := a
      rw [List.cons_append, lookup_cons, lookup_cons]
      by_cases h : q = k
      · simp [h, Option.orElse]
      · simp [h, ih]

lemma lookup_none_iff (q : ℤ) (m : List (ℤ × DT)) :
    List.lookup q m = none ↔ q ∉ m.map Prod.fst := by
  induction m with
  | nil => simp [List.lookup]
  | cons a m ih =>
      obtain ⟨k, v⟩ := a
      rw [lookup_cons]
      by_cases h : q = k
      · simp [h]
      · simp [h, ih]

lemma lookup_isSome_iff_mem (q : ℤ) (m : List (ℤ × DT)) :
    (List.lookup q m).isSome = true ↔ q ∈ m.map Prod.fst := by
  rw [← Option.ne_none_iff_isSome]
  rw [Ne, lookup_none_iff, not_not]

lemma assocSet_keys (m : List (ℤ × DT)) (k : ℤ) (v : DT) :
    (assocSet m k v).map Prod.fst = m.map Prod.fst := by
  induction m with
  | nil => simp [assocSet]
  | cons a m ih =>
      obtain ⟨a1, a2⟩ := a
      by_cases h : a1 = k
      · simp [assocSet, h] at ih ⊢
        exact ih
      · simp [assocSet, h] at ih ⊢
        exact ih

lemma saw_events (st : ParseState) (p : ℤ) (t : DT) :
    (saw_pid_at st p t).events = st.events := by
  unfold saw_pid_at
  cases List.lookup p st.pids_by_first_seen with
  | none => rfl
  | some old =>
      by_cases h : t.micros < old.micros
      · simp [h]
      · simp [h]

lemma saw_minmax (st : ParseState) (p : ℤ) (t : DT) :
    (saw_pid_at st p t).timestamp_minmax = st.timestamp_minmax := by
  unfold saw_pid_at
  cases List.lookup p st.pids_by_first_seen with
  | none => rfl
  | some old =>
      by_cases h : t.micros < old.micros
      · simp [h]
      · simp [h]

lemma saw_stmts (st : ParseState) (p : ℤ) (t : DT) :
    (saw_pid_at st p t).stmts_by_process = st.stmts_by_process := by
  unfold saw_pid_at
  cases List.lookup p st.pids_by_first_seen with
  | none => rfl
  | some old =>
      by_cases h : t.micros < old.micros
      · simp [h]
      · simp [h]

lemma saw_pids_none (st : ParseState) (p : ℤ) (t : DT)
    (h : List.lookup p st.pids_by_first_seen = none) :
    (saw_pid_at st p t).pids_by_first_seen = st.pids_by_first_seen ++ [(p, t)] := by
  simp [saw_pid_at, h]

lemma saw_pids_some_lt (st : ParseState) (p : ℤ) (t old : DT)
    (h : List.lookup p st.pids_by_first_seen = some old) (hlt : t.micros < old.micros) :
    (saw_pid_at st p t).pids_by_first_seen = assocSet st.pids_by_first_seen p t := by
  simp [saw_pid_at, h, hlt]

lemma saw_pids_some_ge (st : ParseState) (p : ℤ) (t old : DT)
    (h : List.lookup p st.pids_by_first_seen = some old) (hlt : ¬t.micros < old.micros) :
    (saw_pid_at st p t).pids_by_first_seen = st.pids_by_first_seen := by
  simp [saw_pid_at, h, hlt]

lemma saw_lookup_isSome (st : ParseState) (p : ℤ) (t : DT) (q : ℤ) :
    (List.lookup q (saw_pid_at st p t).pids_by_first_seen).isSome = true ↔
      q = p ∨ (List.lookup q st.pids_by_first_seen).isSome = true := by
  cases h : List.lookup p st.pids_by_first_seen with
  | none =>
      rw [saw_pids_none st p t h, lookup_append]
      by_cases hq : q = p
      · subst hq
        rw [h]
        simp [lookup_cons, Option.orElse]
      · have h1 : List.lookup q [(p, t)] = none := by
          rw [lookup_cons]
          simp [hq, List.lookup]
        cases hqq : List.lookup q st.pids_by_first_seen with
        | none => simp [Option.orElse, h1, hq]
        | some v => simp [Option.orElse, hq]
  | some old =>
      by_cases hlt : t.micros < old.micros
      · rw [saw_pids_some_lt st p t old h hlt, lookup_isSome_iff_mem, assocSet_keys,
          ← lookup_isSome_iff_mem]
        constructor
        · exact Or.inr
        · rintro (rfl | hm)
          · simp [h]
          · exact hm
      · rw [saw_pids_some_ge st p t old h hlt]
        constructor
        · exact Or.inr
        · rintro (rfl | hm)
          · simp [h]
          · exact hm

lemma saw_keys_nodup (st : ParseState) (p : ℤ) (t : DT)
    (h : (st.pids_by_first_seen.map Prod.fst).Nodup) :
    ((saw_pid_at st p t).pids_by_first_seen.map Prod.fst).Nodup := by
  cases hl : List.lookup p st.pids_by_first_seen with
  | none =>
      rw [saw_pids_none st p t hl, List.map_append, List.nodup_append]
      refine ⟨h, by simp, ?_⟩
      intro a ha hb
      simp at hb
      subst hb
      exact ((lookup_none_iff a _).mp hl) ha
  | some old =>
      by_cases hlt : t.micros < old.micros
      · rw [saw_pids_some_lt st p t old hl hlt, assocSet_keys]
        exact h
      · rw [saw_pids_some_ge st p t old hl hlt]
        exact h

lemma foldlSaw_events (l : List ℤ) (t : DT) (st : ParseState) :
    ((l.foldl (fun s p => saw_pid_at s p t) st)).events = st.events := by
  induction l generalizing st with
  | nil => rfl
  | cons p l ih => rw [List.foldl_cons, ih, saw_events]

lemma foldlSaw_minmax (l : List ℤ) (t : DT) (st : ParseState) :
    ((l.foldl (fun s p => saw_pid_at s p t) st)).timestamp_minmax = st.timestamp_minmax := by
  induction l generalizing st with
  | nil => rfl
  | cons p l ih => rw [List.foldl_cons, ih, saw_minmax]

lemma foldlSaw_stmts (l : List ℤ) (t : DT) (st : ParseState) :
    ((l.foldl (fun s p => saw_pid_at s p t) st)).stmts_by_process = st.stmts_by_process := by
  induction l generalizing st with
  | nil => rfl
  | cons p l ih => rw [List.foldl_cons, ih, saw_stmts]

lemma foldlSaw_lookup (l : List ℤ) (t : DT) (st : ParseState) (q : ℤ) :
    (List.lookup q ((l.foldl (fun s p => saw_pid_at s p t) st)).pids_by_first_seen).isSome = true ↔
      q ∈ l ∨ (List.lookup q st.pids_by_first_seen).isSome = true := by
  induction l generalizing st with
  | nil => simp
  | cons p l ih =>
      rw [List.foldl_cons, ih, saw_lookup_isSome]
      simp [List.mem_cons]
      tauto

lemma foldlSaw_nodup (l : List ℤ) (t : DT) (st : ParseState)
    (h : (st.pids_by_first_seen.map Prod.fst).Nodup) :
    (((l.foldl (fun s p => saw_pid_at s p t) st)).pids_by_first_seen.map Prod.fst).Nodup := by
  induction l generalizing st with
  | nil => exact h
  | cons p l ih => exact ih _ (saw_keys_nodup st p t h)

/-! ## Reduction lemmas for the exception monad -/

lemma except_bind_ok {α β : Type} (a : α) (f : α → Except PyErr β) :
    (Except.ok a : Except PyErr α) >>= f = f a := rfl

lemma except_bind_err {α β : Type} (e : PyErr) (f : α → Except PyErr β) :
    (Except.error e : Except PyErr α) >>= f = (.error e : Except PyErr β) := rfl

/-! ## Claim C6: lock-wait decoding and self-exclusion -/

/-- C6.  Lock-wait payload decoding yields holder `2845932` with queue
`[2864876, 2857466]` on the first sample and an empty queue on the
second; and for every lock-wait record the handler emits exactly one
event whose secondary related pids are the wait queue with the record's
own pid filtered out, while the holder pid and every wait-queue pid
(the record's own included) are recorded in the first-seen map. -/
theorem C6_lock_wait_decoding :
    (parse_holding_lock_log_line "2845932. Wait queue: 2864876, 2857466.".data =
        .ok ⟨2845932, [2864876, 2857466]⟩) ∧
    (parse_holding_lock_log_line "2852850. Wait queue: .".data = .ok ⟨2852850, []⟩) ∧
    (∀ context core st entry st',
        parse_holding_lock_log_line core = .ok entry →
        handle_process_holding_lock context core st = .ok st' →
          st'.events = st.events ++
            [⟨context.timestamp, context.pid, context, .waitingForLock, none,
              [entry.holding_lock_pid], entry.wait_queue_pid.filter (· ≠ context.pid)⟩] ∧
          ∀ q ∈ entry.holding_lock_pid :: entry.wait_queue_pid, pidKnown st' q) := by
  refine ⟨rfl, rfl, ?_⟩
  intro context core st entry st' h1 h2
  unfold handle_process_holding_lock at h2
  rw [h1, except_bind_ok] at h2
  simp only [Except.ok.injEq] at h2
  subst h2
  constructor
  · show (List.foldl _ (saw_pid_at st entry.holding_lock_pid context.timestamp)
      entry.wait_queue_pid).events ++ _ = _
    rw [foldlSaw_events, saw_events]
  · intro q hq
    unfold pidKnown
    show (List.lookup q (List.foldl _ (saw_pid_at st entry.holding_lock_pid
      context.timestamp) entry.wait_queue_pid).pids_by_first_seen).isSome = true
    rw [foldlSaw_lookup]
    rcases List.mem_cons.mp hq with rfl | hmem
    · right
      rw [saw_lookup_isSome]
      left
      rfl
    · left
      exact hmem

/-! ## Claim C10: marker-free input reaches the empty-span IndexError -/

lemma try_parse_none (ms : List Matcher) (line : LogLine) (st : ParseState)
    (h : classifyRecord line.line = none) : try_parse ms line st = .ok st := by
  unfold try_parse
  rw [h]

lemma runLogLines_noop (ms : List Matcher) (lines : List LogLine) (i : ℕ) (st : ParseState)
    (h : ∀ l ∈ lines, classifyRecord l.line = none) :
    runLogLines ms lines i st = .ok st := by
  induction lines generalizing i with
  | nil => rfl
  | cons l rest ih =>
      unfold runLogLines
      rw [try_parse_none ms l st (h l (List.mem_cons_self l rest))]
      exact ih _ fun x hx => h x (List.mem_cons_of_mem l hx)

/-- C10.  On input whose records match no marker (the empty list
included), ingestion neither returns a model nor raises one of the
documented ingestion errors: the span accumulator stays empty and
indexing it raises a bare `IndexError`. -/
theorem C10_unmatched_records_index_error (lines : List LogLine) (ms : List Matcher)
    (h : ∀ l ∈ lines, classifyRecord l.line = none) :
    parse_postgres_lines lines ms = .error .indexError := by
  unfold parse_postgres_lines
  rw [runLogLines_noop ms lines 1 {} h, except_bind_ok]

/-- C10 witness: a single unrecognized record, and the empty record list. -/
theorem C10_witness :
    parse_postgres_lines [⟨none, "some other noise".data⟩] [] = .error .indexError ∧
    parse_postgres_lines [] [] = .error .indexError := by
  constructor
  · exact C10_unmatched_records_index_error _ _ (by
      intro l hl
      rw [List.mem_singleton] at hl
      subst hl
      rfl)
  · exact C10_unmatched_records_index_error _ _ (by intro l hl; cases hl)

/-! ## Claim C5: continuation-line merging -/

lemma extendLine_nil (x : LogLine) : extendLine x [] = x := by
  simp [extendLine]

lemma extendLine_cons (x : LogLine) (c : LogLine) (cs : List LogLine) :
    extendLine x (c :: cs) = extendLine ⟨x.timestamp, x.line ++ '\n' :: c.line⟩ cs := by
  simp [extendLine, List.flatMap_cons, List.append_assoc]

lemma mergeGo_some_tab (x l : LogLine) (rest : List LogLine) (ht : isTabLine l = true) :
    mergeGo (some x) (l :: rest) =
      mergeGo (some ⟨x.timestamp, x.line ++ '\n' :: l.line⟩) rest := by
  show (if isTabLine l = true then
      mergeGo (some ⟨x.timestamp, x.line ++ '\n' :: l.line⟩) rest
    else mergeGo (some l) rest >>= fun r => .ok (x :: r)) = _
  exact if_pos ht

lemma mergeGo_some_nontab (x l : LogLine) (rest : List LogLine) (ht : ¬isTabLine l = true) :
    mergeGo (some x) (l :: rest) =
      mergeGo (some l) rest >>= fun r => .ok (x :: r) := by
  show (if isTabLine l = true then
      mergeGo (some ⟨x.timestamp, x.line ++ '\n' :: l.line⟩) rest
    else mergeGo (some l) rest >>= fun r => .ok (x :: r)) = _
  exact if_neg ht

lemma mergeGo_none_tab (l : LogLine) (rest : List LogLine) (ht : isTabLine l = true) :
    mergeGo none (l :: rest) = .error (.runtimeError l.line) := by
  show (if isTabLine l = true then (.error (.runtimeError l.line) : Except PyErr (List LogLine))
    else mergeGo (some l) rest) = _
  exact if_pos ht

lemma mergeGo_none_nontab (l : LogLine) (rest : List LogLine) (ht : ¬isTabLine l = true) :
    mergeGo none (l :: rest) = mergeGo (some l) rest := by
  show (if isTabLine l = true then (.error (.runtimeError l.line) : Except PyErr (List LogLine))
    else mergeGo (some l) rest) = _
  exact if_neg ht

lemma mergeSpec_nil : mergeSpec [] = .ok [] := by
  rw [mergeSpec]

lemma mergeSpec_cons_tab (l : LogLine) (rest : List LogLine) (ht : isTabLine l = true) :
    mergeSpec (l :: rest) = .error (.runtimeError l.line) := by
  rw [mergeSpec]
  exact if_pos ht

lemma mergeSpec_cons_nontab (l : LogLine) (rest : List LogLine) (ht : ¬isTabLine l = true) :
    mergeSpec (l :: rest) =
      mergeSpec (rest.dropWhile isTabLine) >>= fun r =>
        .ok (extendLine l (rest.takeWhile isTabLine) :: r) := by
  rw [mergeSpec]
  exact if_neg ht

lemma mergeGo_some_eq (lines : List LogLine) : ∀ x : LogLine,
    mergeGo (some x) lines =
      Except.map (fun r => extendLine x (lines.takeWhile isTabLine) :: r)
        (mergeSpec (lines.dropWhile isTabLine)) := by
  induction lines with
  | nil =>
      intro x
      rw [List.takeWhile_nil, List.dropWhile_nil, mergeSpec_nil]
      show Except.ok [x] = Except.ok [extendLine x []]
      rw [extendLine_nil]
  | cons l rest ih =>
      intro x
      by_cases ht : isTabLine l
      · rw [List.takeWhile_cons_of_pos ht, List.dropWhile_cons_of_pos ht,
          mergeGo_some_tab x l rest ht, ih, extendLine_cons]
      · rw [List.takeWhile_cons_of_neg ht, List.dropWhile_cons_of_neg ht,
          mergeGo_some_nontab x l rest ht, ih, mergeSpec_cons_nontab l rest ht]
        cases hms : mergeSpec (rest.dropWhile isTabLine) with
        | error e => rfl
        | ok r =>
            show Except.ok (x :: extendLine l (rest.takeWhile isTabLine) :: r) =
              Except.ok (extendLine x [] :: extendLine l (rest.takeWhile isTabLine) :: r)
            rw [extendLine_nil]

/-- C5 (amended).  `merge_continuation_lines` is exactly the declarative
merge: each maximal run of tab-prefixed records is appended,
newline-joined and with the leading tab retained, to the non-tab record
heading it; a tab-prefixed record with no predecessor raises the orphan
error; emitted records preserve input order. -/
theorem C5_merge_continuations (lines : List LogLine) :
    merge_continuation_lines lines = mergeSpec lines := by
  cases lines with
  | nil =>
      show mergeGo none [] = _
      rw [mergeSpec_nil]
      rfl
  | cons l rest =>
      show mergeGo none (l :: rest) = _
      by_cases ht : isTabLine l
      · rw [mergeGo_none_tab l rest ht, mergeSpec_cons_tab l rest ht]
      · rw [mergeGo_none_nontab l rest ht, mergeGo_some_eq,
          mergeSpec_cons_nontab l rest ht]
        cases hms : mergeSpec (rest.dropWhile isTabLine) with
        | error e => rfl
        | ok r =>
            show Except.ok (extendLine l (rest.takeWhile isTabLine) :: r) = _
            rfl

/-- C5 counterexample: the continuation's text is appended with its
leading tab retained, so the merged text is `"a\n\tb"`, not the
claimed tab-stripped `"a\nb"`. -/
theorem C5_counterexample :
    merge_continuation_lines [⟨none, "a".data⟩, ⟨none, "\tb".data⟩] =
      .ok [⟨none, "a\n\tb".data⟩] ∧
    "a\n\tb".data ≠ "a\nb".data := by
  constructor
  · rfl
  · decide

/-! ## Claim C4: duration-line decoding -/

lemma drop_takeWhile_len (p : Char → Bool) (s : Str) :
    s.drop (s.takeWhile p).length = s.dropWhile p := by
  induction s with
  | nil => rfl
  | cons c t ih =>
      by_cases h : p c
      · simp [List.takeWhile_cons, List.dropWhile_cons, h, ih]
      · simp [List.takeWhile_cons, List.dropWhile_cons, h]

lemma digits_filter_ne_dot (l : Str) (h : l.all isDigit = true) :
    l.filter (· ≠ '.') = l := by
  rw [List.filter_eq_self]
  intro a ha
  have hd := (List.all_eq_true.mp h) a ha
  simp only [ne_eq, decide_eq_true_eq]
  intro heq
  subst heq
  exact absurd hd (by decide)

lemma matchDurationNumeral_spec (s numeral rest : Str)
    (h : matchDurationNumeral s = some (numeral, rest)) :
    ∃ ds f3, numeral = ds ++ '.' :: f3 ∧ ds ≠ [] ∧ ds.all isDigit = true ∧
      f3.length = 3 ∧ f3.all isDigit = true ∧ s = numeral ++ rest ∧
      usecOfNumeral numeral = (natOfDigits (ds ++ f3) : ℤ) := by
  unfold matchDurationNumeral at h
  dsimp only [] at h
  split at h
  · exact absurd h (by simp)
  case isFalse hne =>
    split at h
    case h_1 r2 heq =>
      split at h
      case isTrue hcond =>
        rw [Option.some.injEq, Prod.mk.injEq] at h
        obtain ⟨hnum, hrest⟩ := h
        refine ⟨s.takeWhile isDigit, r2.take 3, hnum.symm, hne, ?_, hcond.1, hcond.2, ?_, ?_⟩
        · rw [List.all_eq_true]
          intro a ha
          exact List.mem_takeWhile_imp ha
        · rw [← hnum, ← hrest]
          calc s = s.takeWhile isDigit ++ s.dropWhile isDigit :=
                (List.takeWhile_append_dropWhile (p := isDigit) (l := s)).symm
            _ = s.takeWhile isDigit ++ ('.' :: r2) := by rw [← drop_takeWhile_len isDigit s, heq]
            _ = s.takeWhile isDigit ++ ('.' :: (r2.take 3 ++ r2.drop 3)) := by
                rw [List.take_append_drop]
            _ = (s.takeWhile isDigit ++ '.' :: r2.take 3) ++ r2.drop 3 := by
                simp [List.append_assoc]
        · rw [← hnum]
          unfold usecOfNumeral
          congr 1
          rw [List.filter_append]
          rw [digits_filter_ne_dot _ (by
            rw [List.all_eq_true]
            intro a ha
            exact List.mem_takeWhile_imp ha)]
          have : ('.' :: r2.take 3).filter (· ≠ '.') = r2.take 3 := by
            rw [List.filter_cons_of_neg (by decide)]
            exact digits_filter_ne_dot _ hcond.2
          rw [this]
      case isFalse => exact absurd h (by simp)
    case h_2 => exact absurd h (by simp)

/-- C4 (amended).  Duration decoding uses only the first physical line:
the two sample lines decode to `1074754` microseconds with statement
`" X"` (the capture keeps everything after the colon, leading blank
included) and to `12000` microseconds with no statement; every
successful decode obtains its microsecond count by deleting the decimal
point from a `digits.3-digits` numeral at the head of the stripped
first line and reading the digits as an integer; and every failure on a
non-empty input is a `RuntimeError` carrying the stripped first line. -/
theorem C4_duration_decoding :
    (parse_duration_log_line "1074.754 ms  statement: X".data =
        .ok ⟨1074754, some " X".data⟩) ∧
    (parse_duration_log_line "12.000 ms".data = .ok ⟨12000, none⟩) ∧
    (∀ line entry, parse_duration_log_line line = .ok entry →
      ∃ ds f3 rest, pyStrip ((line.takeWhile (fun c => c ≠ '\n' ∧ c ≠ '\r'))) =
          ds ++ '.' :: (f3 ++ rest) ∧
        ds ≠ [] ∧ ds.all isDigit = true ∧ f3.length = 3 ∧ f3.all isDigit = true ∧
        entry.duration_usec = (natOfDigits (ds ++ f3) : ℤ)) ∧
    (∀ line e, parse_duration_log_line line = .error e →
      (line = [] ∧ e = .indexError) ∨
      ∃ fl, get_first_line line = .ok fl ∧ e = .runtimeError (pyStrip fl)) := by
  refine ⟨rfl, rfl, ?_, ?_⟩
  · intro line entry h
    unfold parse_duration_log_line at h
    cases hfl : get_first_line line with
    | error e => rw [hfl, except_bind_err] at h; exact absurd h (by simp)
    | ok fl =>
        rw [hfl, except_bind_ok] at h
        have hline : fl = line.takeWhile (fun c => c ≠ '\n' ∧ c ≠ '\r') := by
          unfold get_first_line at hfl
          cases line with
          | nil => exact absurd hfl (by simp)
          | cons c t => rw [Except.ok.injEq] at hfl; exact hfl.symm
        subst hline
        dsimp only [] at h
        split at h
        case h_1 numeral restN hsome =>
          obtain ⟨ds, f3, hnum, hds, hdsd, hf3l, hf3d, hsplit, husec⟩ :=
            matchDurationNumeral_spec _ _ _ hsome
          have hs : pyStrip (line.takeWhile (fun c => c ≠ '\n' ∧ c ≠ '\r')) =
              ds ++ '.' :: (f3 ++ restN) := by
            rw [hsplit, hnum]
            simp [List.append_assoc]
          split at h
          case h_1 r3 =>
            split at h
            case isTrue =>
              rw [Except.ok.injEq] at h
              exact ⟨ds, f3, _, hs, hds, hdsd, hf3l, hf3d, by rw [← h]; exact husec⟩
            case isFalse =>
              split at h
              case isTrue =>
                rw [Except.ok.injEq] at h
                exact ⟨ds, f3, _, hs, hds, hdsd, hf3l, hf3d, by rw [← h]; exact husec⟩
              case isFalse => exact absurd h (by simp)
          case h_2 => exact absurd h (by simp)
        case h_2 => exact absurd h (by simp)
  · intro line e h
    unfold parse_duration_log_line at h
    cases hfl : get_first_line line with
    | error e0 =>
        rw [hfl, except_bind_err] at h
        left
        unfold get_first_line at hfl
        cases line with
        | nil =>
            rw [Except.error.injEq] at hfl h
            exact ⟨rfl, by rw [← h, ← hfl]⟩
        | cons c t => exact absurd hfl (by simp)
    | ok fl =>
        rw [hfl, except_bind_ok] at h
        right
        refine ⟨fl, rfl, ?_⟩
        dsimp only [] at h
        split at h
        case h_1 numeral restN hsome =>
          split at h
          case h_1 r3 =>
            split at h
            case isTrue => exact absurd h (by simp)
            case isFalse =>
              split at h
              case isTrue => exact absurd h (by simp)
              case isFalse => rw [Except.error.injEq] at h; exact h.symm
          case h_2 => rw [Except.error.injEq] at h; exact h.symm
        case h_2 => rw [Except.error.injEq] at h; exact h.symm

/-- C4 counterexample: the decoded statement keeps the blank after
`statement:` — it is `" X"`, not the claimed `"X"`. -/
theorem C4_counterexample :
    parse_duration_log_line "1074.754 ms  statement: X".data =
      .ok ⟨1074754, some " X".data⟩ ∧ " X".data ≠ "X".data := by
  exact ⟨rfl, by decide⟩

/-! ## Claim C9: the fallback colour mode -/

lemma contrastF_zero : contrastF 0 = 0 := by
  unfold contrastF
  norm_num

lemma contrastF_255_eq :
    contrastF 255 = ((255 : ℝ) / 269 + 513 / 10000) ^ ((12 : ℝ) / 5) := by
  unfold contrastF
  rw [if_neg (by norm_num)]
  norm_num

lemma contrastF_255_le_one : contrastF 255 ≤ 1 := by
  rw [contrastF_255_eq]
  exact Real.rpow_le_one (by norm_num) (by norm_num) (by norm_num)

lemma contrastF_255_ge : (0.997 : ℝ) ≤ contrastF 255 := by
  rw [contrastF_255_eq]
  have h3 : ((255 : ℝ) / 269 + 513 / 10000) ^ ((3 : ℕ) : ℝ) ≤
      ((255 : ℝ) / 269 + 513 / 10000) ^ ((12 : ℝ) / 5) :=
    Real.rpow_le_rpow_of_exponent_ge (by norm_num) (by norm_num) (by norm_num)
  calc (0.997 : ℝ) ≤ ((255 : ℝ) / 269 + 513 / 10000) ^ (3 : ℕ) := by norm_num
    _ = ((255 : ℝ) / 269 + 513 / 10000) ^ ((3 : ℕ) : ℝ) :=
        (Real.rpow_natCast _ 3).symm
    _ ≤ _ := h3

lemma yellow_not_sufficient : ¬sufficient_contrast_with_white (255, 255, 0) := by
  unfold sufficient_contrast_with_white contrast_ratio_with_white relative_luminosity
  rw [not_lt]
  dsimp only []
  rw [contrastF_zero]
  have h1 := contrastF_255_ge
  have hDpos : (0 : ℝ) < 0.2126 * contrastF 255 + 0.7152 * contrastF 255 + 0.0722 * 0 + 0.05 := by
    nlinarith
  rw [div_le_iff₀ hDpos]
  nlinarith

lemma red_sufficient : sufficient_contrast_with_white (255, 0, 0) := by
  unfold sufficient_contrast_with_white contrast_ratio_with_white relative_luminosity
  dsimp only []
  rw [contrastF_zero]
  have h1 := contrastF_255_le_one
  have h2 : (0 : ℝ) ≤ contrastF 255 := le_trans (by norm_num) contrastF_255_ge
  have hDpos : (0 : ℝ) < 0.2126 * contrastF 255 + 0.7152 * 0 + 0.0722 * 0 + 0.05 := by
    nlinarith
  rw [gt_iff_lt, lt_div_iff₀ hDpos]
  nlinarith

lemma colourOfHue_sixth : colourOfHue (1 / 6) = (255, 255, 0) := by
  unfold colourOfHue hsv_to_rgb scaleChannel pytruncQ
  norm_num

lemma colourOfHue_zero : colourOfHue 0 = (255, 0, 0) := by
  unfold colourOfHue hsv_to_rgb scaleChannel pytruncQ
  norm_num

lemma cexDraws_zero : cexDraws 0 = 1 / 6 := rfl

lemma cexDraws_one : cexDraws 1 = 0 := rfl

open Classical in
lemma hashSpecRgb_cex : hashSpecRgb cexDraws = (255, 0, 0) := by
  unfold hashSpecRgb
  show (if sufficient_contrast_with_white (colourOfHue (cexDraws 0)) then
      colourOfHue (cexDraws 0) else hashSpecAux cexDraws 99 1) = _
  rw [cexDraws_zero, colourOfHue_sixth, if_neg yellow_not_sufficient]
  show (if sufficient_contrast_with_white (colourOfHue (cexDraws 1)) then
      colourOfHue (cexDraws 1) else hashSpecAux cexDraws 98 2) = _
  rw [cexDraws_one, colourOfHue_zero, if_pos red_sufficient]

/-- C9 counterexample: on a draw stream whose first candidate is pure
yellow and whose second is pure red, the code returns the first draw's
colour (yellow) even though it fails the 1.5 contrast bar, while the
claimed up-to-100-candidate filtered search would return red. -/
theorem C9_counterexample :
    hash_as_colour_rgb cexDraws = (255, 255, 0) ∧
    ¬sufficient_contrast_with_white (hash_as_colour_rgb cexDraws) ∧
    hashSpecRgb cexDraws = (255, 0, 0) := by
  have hy : hash_as_colour_rgb cexDraws = (255, 255, 0) := by
    show colourOfHue (cexDraws 0) = _
    rw [cexDraws_zero, colourOfHue_sixth]
  refine ⟨hy, ?_, hashSpecRgb_cex⟩
  rw [hy]
  exact yellow_not_sufficient

/-- C9 (amended).  In the single-key hashing fallback colour mode the
generator is seeded from the key and a single hue is drawn: the result
depends only on the first draw, and the drawn colour is returned
unconditionally, even when its white-background contrast ratio is below
the 1.5 bar (`sufficient_contrast_with_white` is never consulted). -/
theorem C9_single_draw_no_contrast_filter :
    (∀ d1 d2 : ℕ → ℚ, d1 0 = d2 0 → hash_as_colour_rgb d1 = hash_as_colour_rgb d2) ∧
    (hash_as_colour_rgb cexDraws = (255, 255, 0) ∧
      ¬sufficient_contrast_with_white (hash_as_colour_rgb cexDraws)) := by
  have hy : hash_as_colour_rgb cexDraws = (255, 255, 0) := by
    show colourOfHue (cexDraws 0) = _
    rw [cexDraws_zero, colourOfHue_sixth]
  refine ⟨?_, hy, ?_⟩
  · intro d1 d2 h
    unfold hash_as_colour_rgb
    rw [h]
  · rw [hy]
    exact yellow_not_sufficient

/-! ## Claim C1: prefix-resolution candidate order -/

lemma parseLogPrefixGo_eq (p : Str) : ∀ L : List Matcher,
    parseLogPrefixGo p L = specResolve L p := by
  intro L
  induction L with
  | nil => rfl
  | cons m rest ih =>
      have hgo : parseLogPrefixGo p (m :: rest) =
          (m p) >>= fun r =>
            match r with
            | some info => pure info
            | none =>
                (m (pyStrip p)) >>= fun r2 =>
                  match r2 with
                  | some info => pure info
                  | none => parseLogPrefixGo p rest := rfl
      have hsr : specResolve (m :: rest) p =
          resolveAttempts p (m p :: m (pyStrip p) ::
            (rest.flatMap fun mm => [mm p, mm (pyStrip p)])) := by
        unfold specResolve
        rw [List.flatMap_cons]
        rfl
      rw [hgo, hsr]
      cases h1 : m p with
      | error e => rfl
      | ok r =>
          cases r with
          | some info => rfl
          | none =>
              cases h2 : m (pyStrip p) with
              | error e => rfl
              | ok r2 =>
                  cases r2 with
                  | some info => rfl
                  | none => exact ih

/-- C1 (amended).  Prefix resolution tries exactly the caller's explicit
matchers when any are configured (the explicit format matcher first,
then the explicit raw-regex matcher), and the built-in fallbacks only
when none are; each candidate is tried against the raw prefix and then
its trimmed form, the first non-null result is returned, and exhaustion
of that candidate list raises the unresolved-prefix error carrying the
offending text (`specResolve` is that resolution order, stated from the
spec's words over a candidate list). -/
theorem C1_explicit_matchers_replace_builtins (p : Str) (ms : List Matcher) :
    parseLogPrefixFn p ms =
      specResolve (if ms.isEmpty then DEFAULT_LOG_PREFIX_MATCHERS else ms) p := by
  unfold parseLogPrefixFn
  exact parseLogPrefixGo_eq p _

/-- C1 counterexample: with an explicit `%m [%p]` format matcher
configured, a prefix that only the first built-in fallback format
matches is not resolved — resolution raises the unresolved-prefix error
— although the claimed candidate order (explicit matchers followed by
the built-in fallbacks) would resolve it. -/
theorem C1_counterexample :
    parseLogPrefixFn cexPrefixText [cexExplicitMatcher] =
      .error (.valueError cexPrefixText) ∧
    (specResolve (cexExplicitMatcher :: DEFAULT_LOG_PREFIX_MATCHERS) cexPrefixText).isOk
      = true := by
  exact ⟨rfl, rfl⟩

/-! ## Claim C8: the sentinel postcondition of `apply` -/

/-- C8 (amended).  For every compiled pattern and every input line,
`apply` returns no-match, raises (a reachable outcome — see the
counterexample with a literal pid field `0`), or returns an info whose
pid is non-zero and whose timestamp differs from the 1970-01-01
sentinel: the postcondition the final checks enforce. -/
theorem C8_apply_postcondition (ast : Ast) (s : Str) (info : LogPrefixInfo)
    (h : applyAst ast s = .ok (some info)) :
    info.pid ≠ 0 ∧ pyEqDT info.timestamp sentinelDT = false := by
  unfold applyAst at h
  split at h
  · exact absurd h (by simp)
  case h_2 caps hm =>
      cases hf : (astGroupNames ast).foldlM
          (fun info g =>
            match lookupCap caps g with
            | some v => if v ≠ [] then applyHandler g v info else .ok info
            | none => .ok info)
          initLogPrefixInfo with
      | error e => rw [hf, except_bind_err] at h; exact absurd h (by simp)
      | ok info' =>
          rw [hf, except_bind_ok] at h
          split at h
          · exact absurd h (by simp)
          · split at h
            · exact absurd h (by simp)
            case isFalse h1 h2 =>
              rw [Except.ok.injEq, Option.some.injEq] at h
              subst h
              refine ⟨h2, ?_⟩
              cases hb : pyEqDT info'.timestamp sentinelDT
              · rfl
              · exact absurd hb h1

/-- C8 witness: the `%m [%p]` matcher on a well-formed line returns an
info satisfying the postcondition. -/
theorem C8_witness :
    applyAst builtinAst3 witPrefixLine = .ok (some witPrefixInfo) ∧
    witPrefixInfo.pid ≠ 0 ∧ pyEqDT witPrefixInfo.timestamp sentinelDT = false := by
  refine ⟨rfl, ?_, ?_⟩
  · exact (C8_apply_postcondition builtinAst3 witPrefixLine witPrefixInfo rfl).1
  · exact (C8_apply_postcondition builtinAst3 witPrefixLine witPrefixInfo rfl).2

/-- C8 counterexample: `%m [%p]` is a valid format whose compiled
matcher, applied to a line whose pid field is the literal `0`, takes
the "internal-consistency" `RuntimeError` branch — that branch is
reachable by input alone, not only by construction bugs. -/
theorem C8_counterexample :
    makePrefixAst "%m [%p]".data = .ok builtinAst3 ∧
    applyAst builtinAst3 cexZeroPidLine =
      .error (.runtimeError "didnt capture pid".data) := by
  exact ⟨rfl, rfl⟩

/-! ## Claim C7: marker classification by table order -/

lemma findOcc_le_length (pat : Str) : ∀ (s : Str) (i : ℕ),
    findOcc pat s = some i → i ≤ s.length := by
  intro s
  induction s with
  | nil =>
      intro i h
      unfold findOcc at h
      split at h
      · rw [Option.some.injEq] at h; omega
      · exact absurd h (by simp)
  | cons c t ih =>
      intro i h
      unfold findOcc at h
      split at h
      · rw [Option.some.injEq] at h; omega
      · rw [Option.map_eq_some'] at h
        obtain ⟨j, hj, rfl⟩ := h
        have := ih j hj
        simp only [List.length_cons]
        omega

lemma findOcc_some_prefix (pat : Str) : ∀ (s : Str) (i : ℕ),
    findOcc pat s = some i → pat <+: s.drop i := by
  intro s
  induction s with
  | nil =>
      intro i h
      unfold findOcc at h
      split at h
      case isTrue hp =>
        rw [Option.some.injEq] at h
        subst h
        exact List.isPrefixOf_iff_prefix.mp hp
      · exact absurd h (by simp)
  | cons c t ih =>
      intro i h
      unfold findOcc at h
      split at h
      case isTrue hp =>
        rw [Option.some.injEq] at h
        subst h
        exact List.isPrefixOf_iff_prefix.mp hp
      · rw [Option.map_eq_some'] at h
        obtain ⟨j, hj, rfl⟩ := h
        exact ih j hj

lemma findOcc_some_min (pat : Str) : ∀ (s : Str) (i : ℕ),
    findOcc pat s = some i → ∀ j < i, ¬pat <+: s.drop j := by
  intro s
  induction s with
  | nil =>
      intro i h
      unfold findOcc at h
      split at h
      · rw [Option.some.injEq] at h
        intro j hj
        exact absurd hj (by omega)
      · exact absurd h (by simp)
  | cons c t ih =>
      intro i h
      unfold findOcc at h
      split at h
      · rw [Option.some.injEq] at h
        intro j hj
        exact absurd hj (by omega)
      case isFalse hneg =>
        rw [Option.map_eq_some'] at h
        obtain ⟨j0, hj0, rfl⟩ := h
        intro j hj
        cases j with
        | zero =>
            intro hpre
            exact hneg (List.isPrefixOf_iff_prefix.mpr hpre)
        | succ k =>
            show ¬pat <+: t.drop k
            exact ih j0 hj0 k (by omega)

lemma findOcc_none (pat : Str) : ∀ (s : Str),
    findOcc pat s = none → ∀ j, ¬pat <+: s.drop j := by
  intro s
  induction s with
  | nil =>
      intro h j
      unfold findOcc at h
      split at h
      · exact absurd h (by simp)
      case isFalse hneg =>
        intro hpre
        rw [List.drop_nil] at hpre
        exact hneg (List.isPrefixOf_iff_prefix.mpr hpre)
  | cons c t ih =>
      intro h j
      unfold findOcc at h
      split at h
      · exact absurd h (by simp)
      case isFalse hneg =>
        rw [Option.map_eq_none'] at h
        cases j with
        | zero =>
            intro hpre
            exact hneg (List.isPrefixOf_iff_prefix.mpr hpre)
        | succ k =>
            show ¬pat <+: t.drop k
            exact ih h k

lemma occursIn_iff_exists_drop (text pat : Str) :
    occursIn text pat ↔ ∃ i, pat <+: text.drop i := by
  constructor
  · rintro ⟨u, v, rfl⟩
    refine ⟨u.length, ?_⟩
    rw [List.append_assoc, List.drop_left]
    exact ⟨v, rfl⟩
  · rintro ⟨i, w, hw⟩
    exact ⟨text.take i, w, by rw [List.append_assoc, hw, List.take_append_drop]⟩

lemma classifyWith_none_iff (tbl : List (Str × MarkerKind)) (text : Str) :
    classifyWith tbl text = none ↔ ∀ e ∈ tbl, ¬occursIn text e.1 := by
  induction tbl with
  | nil => simp [classifyWith]
  | cons e tbl ih =>
      unfold classifyWith at ih ⊢
      rw [List.findSome?_cons]
      cases ho : findOcc e.1 text with
      | some i =>
          simp only []
          constructor
          · intro h; exact absurd h (by simp)
          · intro h
            exact absurd ((occursIn_iff_exists_drop text e.1).mpr
              ⟨i, findOcc_some_prefix e.1 text i ho⟩) (h e (List.mem_cons_self e tbl))
      | none =>
          simp only []
          rw [ih]
          constructor
          · intro h f hf
            rcases List.mem_cons.mp hf with rfl | hmem
            · intro hocc
              obtain ⟨i, hp⟩ := (occursIn_iff_exists_drop text f.1).mp hocc
              exact findOcc_none f.1 text ho i hp
            · exact h f hmem
          · intro h f hf
            exact h f (List.mem_cons_of_mem e hf)

lemma classifyWith_some (tbl : List (Str × MarkerKind)) (text : Str)
    (k : MarkerKind) (p c : Str) (h : classifyWith tbl text = some (k, p, c)) :
    ∃ tbl₁ mark tbl₂, tbl = tbl₁ ++ (mark, k) :: tbl₂ ∧
      (∀ e ∈ tbl₁, ¬occursIn text e.1) ∧
      text = p ++ mark ++ c ∧
      ∀ u v, text = u ++ mark ++ v → p.length ≤ u.length := by
  induction tbl with
  | nil => exact absurd h (by simp [classifyWith])
  | cons e tbl ih =>
      unfold classifyWith at h
      rw [List.findSome?_cons] at h
      cases ho : findOcc e.1 text with
      | some i =>
          rw [ho] at h
          simp only [Option.some.injEq, Prod.mk.injEq] at h
          obtain ⟨hk, hp, hc⟩ := h
          obtain ⟨w, hw⟩ := findOcc_some_prefix e.1 text i ho
          have hile : i ≤ text.length := findOcc_le_length e.1 text i ho
          have hweq : w = text.drop (i + e.1.length) := by
            have := congrArg (List.drop e.1.length) hw
            rwa [List.drop_left, List.drop_drop] at this
          have he : e = (e.1, k) := by rw [← hk]
          refine ⟨[], e.1, tbl, by rw [List.nil_append, ← he], by simp, ?_, ?_⟩
          · rw [← hp, ← hc, ← hweq, List.append_assoc, hw, List.take_append_drop]
          · intro u v huv
            have hpre : e.1 <+: text.drop u.length := by
              rw [huv, List.append_assoc, List.drop_left]
              exact ⟨v, rfl⟩
            have : ¬u.length < i := fun hlt =>
              findOcc_some_min e.1 text i ho u.length hlt hpre
            rw [← hp, List.length_take]
            omega
      | none =>
          rw [ho] at h
          simp only [] at h
          obtain ⟨tbl₁, mark, tbl₂, hsplit, hnone, htext, hmin⟩ := ih h
          refine ⟨e :: tbl₁, mark, tbl₂, by rw [List.cons_append, ← hsplit], ?_, htext, hmin⟩
          intro f hf
          rcases List.mem_cons.mp hf with rfl | hmem
          · intro hocc
            obtain ⟨i, hpre⟩ := (occursIn_iff_exists_drop text f.1).mp hocc
            exact findOcc_none f.1 text ho i hpre
          · exact hnone f hmem

/-- C7.  Classification picks the first entry of the fixed marker table
in table order (an entry wins exactly when its marker occurs in the
text and no earlier table entry's marker occurs anywhere in it — table
order, not earliest occurrence, decides), the text is split at the
winning marker's first occurrence, and a record in which no marker
occurs is silently discarded: `try_parse` returns the state unchanged
and raises nothing. -/
theorem C7_marker_table_order :
    (∀ text k p c, classifyRecord text = some (k, p, c) →
        ∃ tbl₁ mark tbl₂, dispatchTable = tbl₁ ++ (mark, k) :: tbl₂ ∧
          (∀ e ∈ tbl₁, ¬occursIn text e.1) ∧ occursIn text mark ∧
          text = p ++ mark ++ c ∧
          ∀ u v, text = u ++ mark ++ v → p.length ≤ u.length) ∧
    (∀ text, classifyRecord text = none ↔ ∀ e ∈ dispatchTable, ¬occursIn text e.1) ∧
    (∀ (ms : List Matcher) (line : LogLine) (st : ParseState),
        classifyRecord line.line = none → try_parse ms line st = .ok st) := by
  refine ⟨?_, ?_, ?_⟩
  · intro text k p c h
    obtain ⟨tbl₁, mark, tbl₂, hsplit, hnone, htext, hmin⟩ :=
      classifyWith_some dispatchTable text k p c h
    exact ⟨tbl₁, mark, tbl₂, hsplit, hnone, ⟨p, c, htext⟩, htext, hmin⟩
  · intro text
    exact classifyWith_none_iff dispatchTable text
  · intro ms line st h
    exact try_parse_none ms line st h

/-! ## Claim C3: format-compiler success and failure -/

lemma codesAt_false (fmt : Str) : codesAt fmt false = codesOf fmt := rfl

lemma codesAt_cons_true (c : Char) (rest : Str) :
    codesAt (c :: rest) true = c :: codesOf rest := rfl

lemma codesOf_cons_percent (rest : Str) : codesOf ('%' :: rest) = codesAt rest true := by
  cases rest with
  | nil => rfl
  | cons c2 r2 => rfl

lemma codesOf_cons_ne (c : Char) (rest : Str) (h : ¬c = '%') :
    codesOf (c :: rest) = codesOf rest := by
  conv_lhs => unfold codesOf
  rw [if_neg h]

lemma scanCnd_nil (used : List Char) : scanCnd [] used := by
  refine ⟨by simp, ?_⟩
  intro c _
  simp only [List.count_nil]
  split <;> omega

lemma scanCnd_shift (codes used : List Char) (c : Char)
    (hd : ¬(c ∈ used ∧ c ≠ '%')) (hk : c ∈ knownCodes) :
    scanCnd (c :: codes) used ↔ scanCnd codes (c :: used) := by
  unfold scanCnd
  constructor
  · rintro ⟨h1, h2⟩
    refine ⟨fun x hx => h1 x (List.mem_cons_of_mem c hx), ?_⟩
    intro x hx
    have hx2 := h2 x hx
    by_cases hxc : x = c
    · subst hxc
      have hnu : x ∉ used := fun hm => hd ⟨hm, hx⟩
      rw [List.count_cons_self] at hx2
      simp only [hnu, if_false] at hx2
      simp only [List.mem_cons, true_or, if_true]
      omega
    · rw [List.count_cons_of_ne hxc] at hx2
      simp only [List.mem_cons, hxc, false_or]
      exact hx2
  · rintro ⟨h1, h2⟩
    refine ⟨?_, ?_⟩
    · intro x hx
      rcases List.mem_cons.mp hx with rfl | hmem
      · exact hk
      · exact h1 x hmem
    · intro x hx
      have hx2 := h2 x hx
      by_cases hxc : x = c
      · subst hxc
        have hnu : x ∉ used := fun hm => hd ⟨hm, hx⟩
        rw [List.count_cons_self]
        simp only [List.mem_cons, true_or, if_true] at hx2
        simp only [hnu, if_false]
        omega
      · rw [List.count_cons_of_ne hxc]
        simp only [List.mem_cons, hxc, false_or] at hx2
        exact hx2

lemma scanCnd_head_dup (codes used : List Char) (c : Char)
    (hu : c ∈ used) (hne : c ≠ '%') : ¬scanCnd (c :: codes) used := by
  rintro ⟨_, h2⟩
  have := h2 c hne
  rw [List.count_cons_self] at this
  simp only [hu, if_true] at this
  omega

lemma scanCnd_head_unknown (codes used : List Char) (c : Char)
    (hk : c ∉ knownCodes) : ¬scanCnd (c :: codes) used := by
  rintro ⟨h1, _⟩
  exact hk (h1 c (List.mem_cons_self c codes))

lemma scan_ok_iff (fmt : Str) : ∀ (expecting : Bool) (used : List Char) (st : Ast),
    (∃ r, scanFormat fmt expecting used st = .ok r) ↔
      scanCnd (codesAt fmt expecting) used := by
  induction fmt with
  | nil =>
      intro e used st
      constructor
      · intro _
        cases e <;> exact scanCnd_nil used
      · intro _
        exact ⟨(st, used), rfl⟩
  | cons c rest ih =>
      intro e used st
      cases e with
      | false =>
          by_cases hc : c = '%'
          · subst hc
            have hscan : scanFormat ('%' :: rest) false used st =
                scanFormat rest true used st := rfl
            rw [hscan, codesAt_false, codesOf_cons_percent]
            exact ih true used st
          · have hscan : scanFormat (c :: rest) false used st =
                scanFormat rest false used (pushAtom st (.lit c)) := by
              show (if c = '%' then scanFormat rest true used st
                else scanFormat rest false used (pushAtom st (.lit c))) = _
              rw [if_neg hc]
            rw [hscan, codesAt_false, codesOf_cons_ne c rest hc]
            exact ih false used (pushAtom st (.lit c))
      | true =>
          rw [codesAt_cons_true]
          have hscan : scanFormat (c :: rest) true used st =
              if c ∈ used ∧ c ≠ '%' then .error (.valueError [c])
              else if c ∈ knownCodes then
                scanFormat rest false (c :: used) (applyCode st c)
              else .error (.valueError [c]) := rfl
          rw [hscan]
          by_cases hd : c ∈ used ∧ c ≠ '%'
          · rw [if_pos hd]
            constructor
            · rintro ⟨r, hr⟩
              exact absurd hr (by simp)
            · intro hcnd
              exact absurd hcnd (scanCnd_head_dup _ used c hd.1 hd.2)
          · rw [if_neg hd]
            by_cases hk : c ∈ knownCodes
            · rw [if_pos hk]
              rw [ih false (c :: used) (applyCode st c), codesAt_false]
              exact (scanCnd_shift (codesOf rest) used c hd hk).symm
            · rw [if_neg hk]
              constructor
              · rintro ⟨r, hr⟩
                exact absurd hr (by simp)
              · intro hcnd
                exact absurd hcnd (scanCnd_head_unknown _ used c hk)

lemma scan_used (fmt : Str) : ∀ (expecting : Bool) (used : List Char) (st : Ast)
    (r : Ast × List Char), scanFormat fmt expecting used st = .ok r →
    ∀ c, c ∈ r.2 ↔ c ∈ codesAt fmt expecting ∨ c ∈ used := by
  induction fmt with
  | nil =>
      intro e used st r h c
      have h2 : (Except.ok (st, used) : Except PyErr (Ast × List Char)) = .ok r := h
      rw [Except.ok.injEq] at h2
      subst h2
      cases e
      · rw [codesAt_false]
        unfold codesOf
        simp
      · simp [codesAt]
  | cons c0 rest ih =>
      intro e used st r h c
      cases e with
      | false =>
          by_cases hc : c0 = '%'
          · subst hc
            have hscan : scanFormat ('%' :: rest) false used st =
                scanFormat rest true used st := rfl
            rw [hscan] at h
            rw [codesAt_false, codesOf_cons_percent]
            exact ih true used st r h c
          · have hscan : scanFormat (c0 :: rest) false used st =
                scanFormat rest false used (pushAtom st (.lit c0)) := by
              show (if c0 = '%' then scanFormat rest true used st
                else scanFormat rest false used (pushAtom st (.lit c0))) = _
              rw [if_neg hc]
            rw [hscan] at h
            rw [codesAt_false, codesOf_cons_ne c0 rest hc]
            exact ih false used (pushAtom st (.lit c0)) r h c
      | true =>
          have hscan : scanFormat (c0 :: rest) true used st =
              if c0 ∈ used ∧ c0 ≠ '%' then .error (.valueError [c0])
              else if c0 ∈ knownCodes then
                scanFormat rest false (c0 :: used) (applyCode st c0)
              else .error (.valueError [c0]) := rfl
          rw [hscan] at h
          by_cases hd : c0 ∈ used ∧ c0 ≠ '%'
          · rw [if_pos hd] at h
            exact absurd h (by simp)
          · rw [if_neg hd] at h
            by_cases hk : c0 ∈ knownCodes
            · rw [if_pos hk] at h
              have := ih false (c0 :: used) (applyCode st c0) r h c
              rw [codesAt_false] at this
              rw [codesAt_cons_true, this]
              simp [List.mem_cons]
              tauto
            · rw [if_neg hk] at h
              exact absurd h (by simp)

/-- C3.  Compiling a log-line-prefix format succeeds exactly when every
escape code is known, no code other than the literal-percent escape is
used twice, the pid code occurs exactly once, and at least one of the
two timestamp codes occurs — so it fails precisely on an unknown code,
a repeated non-percent code, an absent pid code, or absent timestamp
codes. -/
theorem C3_compile_iff (fmt : Str) :
    (∃ a, makePrefixAst fmt = .ok a) ↔
      ((∀ c ∈ codesOf fmt, c ∈ knownCodes) ∧
       (∀ c, c ≠ '%' → (codesOf fmt).count c ≤ 1) ∧
       (codesOf fmt).count 'p' = 1 ∧
       ('t' ∈ codesOf fmt ∨ 'm' ∈ codesOf fmt)) := by
  have hcnd_iff : scanCnd (codesOf fmt) [] ↔
      ((∀ c ∈ codesOf fmt, c ∈ knownCodes) ∧
        ∀ c, c ≠ '%' → (codesOf fmt).count c ≤ 1) := by
    unfold scanCnd
    constructor
    · rintro ⟨h1, h2⟩
      refine ⟨h1, fun c hc => ?_⟩
      have := h2 c hc
      simp only [List.not_mem_nil, if_false] at this
      omega
    · rintro ⟨h1, h2⟩
      refine ⟨h1, fun c hc => ?_⟩
      have := h2 c hc
      simp only [List.not_mem_nil, if_false]
      omega
  constructor
  · rintro ⟨a, ha⟩
    unfold makePrefixAst at ha
    cases hs : scanFormat fmt false [] ⟨[], none⟩ with
    | error e => rw [hs, except_bind_err] at ha; exact absurd ha (by simp)
    | ok r =>
        obtain ⟨st0, used0⟩ := r
        rw [hs, except_bind_ok] at ha
        have hcnd := (scan_ok_iff fmt false [] ⟨[], none⟩).mp ⟨(st0, used0), hs⟩
        rw [codesAt_false] at hcnd
        have hused := scan_used fmt false [] ⟨[], none⟩ (st0, used0) hs
        rw [codesAt_false] at hused
        simp only [List.not_mem_nil, or_false] at hused
        obtain ⟨h1, h2⟩ := hcnd_iff.mp hcnd
        have ha2 : (if 'p' ∉ used0 then (Except.error (PyErr.valueError fmt) : Except PyErr Ast)
            else if 't' ∉ used0 ∧ 'm' ∉ used0 then Except.error (PyErr.valueError fmt)
            else Except.ok st0) = Except.ok a := ha
        by_cases hp : 'p' ∉ used0
        · rw [if_pos hp] at ha2
          exact absurd ha2 (by simp)
        · rw [if_neg hp] at ha2
          by_cases htm : 't' ∉ used0 ∧ 'm' ∉ used0
          · rw [if_pos htm] at ha2
            exact absurd ha2 (by simp)
          · have hpmem : 'p' ∈ codesOf fmt := (hused 'p').mp (by
              by_contra hcon
              exact hp hcon)
            refine ⟨h1, h2, ?_, ?_⟩
            · have hle := h2 'p' (by decide)
              have hpos := List.count_pos_iff.mpr hpmem
              omega
            · rcases not_and_or.mp htm with ht | hm
              · left
                exact (hused 't').mp (by
                  by_contra hcon
                  exact ht hcon)
              · right
                exact (hused 'm').mp (by
                  by_contra hcon
                  exact hm hcon)
  · rintro ⟨hknown, hcount, hp, htm⟩
    have hcnd : scanCnd (codesAt fmt false) [] := by
      rw [codesAt_false]
      exact hcnd_iff.mpr ⟨hknown, hcount⟩
    obtain ⟨r, hs⟩ := (scan_ok_iff fmt false [] ⟨[], none⟩).mpr hcnd
    obtain ⟨st0, used0⟩ := r
    have hused := scan_used fmt false [] ⟨[], none⟩ (st0, used0) hs
    rw [codesAt_false] at hused
    simp only [List.not_mem_nil, or_false] at hused
    refine ⟨st0, ?_⟩
    unfold makePrefixAst
    rw [hs, except_bind_ok]
    have hpmem : 'p' ∈ used0 := (hused 'p').mpr (List.count_pos_iff.mp (by omega))
    have htmmem : ¬('t' ∉ used0 ∧ 'm' ∉ used0) := by
      rintro ⟨ht, hm⟩
      rcases htm with h | h
      · exact ht ((hused 't').mpr h)
      · exact hm ((hused 'm').mpr h)
    show (if 'p' ∉ used0 then Except.error (PyErr.valueError fmt)
      else if 't' ∉ used0 ∧ 'm' ∉ used0 then Except.error (PyErr.valueError fmt)
      else Except.ok st0) = Except.ok st0
    rw [if_neg (by simp [hpmem]), if_neg htmmem]

/-! ## Claim C2: process bookkeeping and the global span -/

lemma inSpan_widen_old (a b ts t : DT) (h : inSpan (some (a, b)) t) :
    inSpan (widenMM (some (a, b)) ts) t := by
  intro a' b' heq
  have hab := h a b rfl
  simp only [widenMM, Option.some.injEq, Prod.mk.injEq] at heq
  obtain ⟨rfl, rfl⟩ := heq
  unfold pyMinDT pyMaxDT
  constructor
  · split <;> omega
  · split <;> omega

lemma inSpan_widen_new (mm : Option (DT × DT)) (ts : DT) :
    inSpan (widenMM mm ts) ts := by
  intro a' b' heq
  cases mm with
  | none =>
      simp only [widenMM, Option.some.injEq, Prod.mk.injEq] at heq
      obtain ⟨rfl, rfl⟩ := heq
      omega
  | some ab =>
      obtain ⟨a, b⟩ := ab
      simp only [widenMM, Option.some.injEq, Prod.mk.injEq] at heq
      obtain ⟨rfl, rfl⟩ := heq
      unfold pyMinDT pyMaxDT
      constructor
      · split <;> omega
      · split <;> omega

lemma widenMM_ne_none (mm : Option (DT × DT)) (ts : DT) : widenMM mm ts ≠ none := by
  cases mm with
  | none => simp [widenMM]
  | some ab => obtain ⟨a, b⟩ := ab; simp [widenMM]

lemma StInv_widen (st : ParseState) (ts : DT) (hinv : StInv st) :
    StInv { st with timestamp_minmax := widenMM st.timestamp_minmax ts } := by
  obtain ⟨h1, h2, h3, h4⟩ := hinv
  refine ⟨?_, ?_, h3, ?_⟩
  · intro pe hpe s hs
    cases hmm : st.timestamp_minmax with
    | none =>
        rw [(h4 hmm).2] at hpe
        exact absurd hpe (by simp)
    | some ab =>
        obtain ⟨a, b⟩ := ab
        obtain ⟨hk, hsp⟩ := h1 pe hpe s hs
        rw [hmm] at hsp
        exact ⟨hk, inSpan_widen_old a b ts s.end_time hsp⟩
  · intro e he
    cases hmm : st.timestamp_minmax with
    | none =>
        rw [(h4 hmm).1] at he
        exact absurd he (by simp)
    | some ab =>
        obtain ⟨a, b⟩ := ab
        obtain ⟨hk, hrel, hsp⟩ := h2 e he
        rw [hmm] at hsp
        exact ⟨hk, hrel, inSpan_widen_old a b ts e.time hsp⟩
  · intro hmm
    exact absurd hmm (widenMM_ne_none st.timestamp_minmax ts)

lemma StInv_saw (st : ParseState) (p : ℤ) (t : DT) (hinv : StInv st) :
    StInv (saw_pid_at st p t) := by
  obtain ⟨h1, h2, h3, h4⟩ := hinv
  refine ⟨?_, ?_, saw_keys_nodup st p t h3, ?_⟩
  · intro pe hpe s hs
    rw [saw_stmts] at hpe
    obtain ⟨hk, hsp⟩ := h1 pe hpe s hs
    refine ⟨(saw_lookup_isSome st p t s.pid).mpr (Or.inr hk), ?_⟩
    show inSpan (saw_pid_at st p t).timestamp_minmax s.end_time
    rw [saw_minmax]
    exact hsp
  · intro e he
    rw [saw_events] at he
    obtain ⟨hk, hrel, hsp⟩ := h2 e he
    refine ⟨(saw_lookup_isSome st p t e.pid).mpr (Or.inr hk),
      fun q hq => (saw_lookup_isSome st p t q).mpr (Or.inr (hrel q hq)), ?_⟩
    show inSpan (saw_pid_at st p t).timestamp_minmax e.time
    rw [saw_minmax]
    exact hsp
  · intro hmm
    rw [saw_minmax] at hmm
    rw [saw_events, saw_stmts]
    exact h4 hmm

lemma StInv_foldlSaw (l : List ℤ) (t : DT) (st : ParseState) (hinv : StInv st) :
    StInv (l.foldl (fun s p => saw_pid_at s p t) st) := by
  induction l generalizing st with
  | nil => exact hinv
  | cons p l ih => exact ih _ (StInv_saw st p t hinv)

lemma StInv_append_event (st : ParseState) (ev : Event) (hinv : StInv st)
    (hpid : pidKnown st ev.pid)
    (hrel : ∀ q ∈ ev.primary_related_pids ++ ev.secondary_related_pids, pidKnown st q)
    (hspan : inSpan st.timestamp_minmax ev.time)
    (hsome : st.timestamp_minmax ≠ none) :
    StInv { st with events := st.events ++ [ev] } := by
  obtain ⟨h1, h2, h3, h4⟩ := hinv
  refine ⟨h1, ?_, h3, ?_⟩
  · intro e he
    rcases List.mem_append.mp he with hold | hnew
    · exact h2 e hold
    · rw [List.mem_singleton] at hnew
      subst hnew
      exact ⟨hpid, hrel, hspan⟩
  · intro hmm
    exact absurd hmm hsome

lemma appendStmt_events (st : ParseState) (stmt : Statement) :
    (appendStmt st stmt).events = st.events := by
  cases hl : List.lookup stmt.pid st.stmts_by_process <;> simp [appendStmt, hl]

lemma appendStmt_pids (st : ParseState) (stmt : Statement) :
    (appendStmt st stmt).pids_by_first_seen = st.pids_by_first_seen := by
  cases hl : List.lookup stmt.pid st.stmts_by_process <;> simp [appendStmt, hl]

lemma appendStmt_minmax (st : ParseState) (stmt : Statement) :
    (appendStmt st stmt).timestamp_minmax = st.timestamp_minmax := by
  cases hl : List.lookup stmt.pid st.stmts_by_process <;> simp [appendStmt, hl]

lemma appendStmt_mem (st : ParseState) (stmt : Statement) :
    ∀ pe ∈ (appendStmt st stmt).stmts_by_process, ∀ s ∈ pe.2,
      (∃ pe0 ∈ st.stmts_by_process, s ∈ pe0.2) ∨ s = stmt := by
  intro pe hpe s hs
  cases hl : List.lookup stmt.pid st.stmts_by_process with
  | none =>
      rw [show (appendStmt st stmt).stmts_by_process =
          st.stmts_by_process ++ [(stmt.pid, [stmt])] by simp [appendStmt, hl]] at hpe
      rcases List.mem_append.mp hpe with hold | hnew
      · exact Or.inl ⟨pe, hold, hs⟩
      · rw [List.mem_singleton] at hnew
        subst hnew
        rw [List.mem_singleton] at hs
        exact Or.inr hs
  | some l =>
      rw [show (appendStmt st stmt).stmts_by_process =
          st.stmts_by_process.map fun p =>
            if p.1 = stmt.pid then (p.1, p.2 ++ [stmt]) else p by simp [appendStmt, hl]] at hpe
      rw [List.mem_map] at hpe
      obtain ⟨q, hq, hfq⟩ := hpe
      by_cases hqp : q.1 = stmt.pid
      · rw [if_pos hqp] at hfq
        subst hfq
        rcases List.mem_append.mp hs with hold | hnew
        · exact Or.inl ⟨q, hq, hold⟩
        · rw [List.mem_singleton] at hnew
          exact Or.inr hnew
      · rw [if_neg hqp] at hfq
        subst hfq
        exact Or.inl ⟨q, hq, hs⟩

lemma StInv_appendStmt (st : ParseState) (stmt : Statement) (hinv : StInv st)
    (hpid : pidKnown st stmt.pid)
    (hspan : inSpan st.timestamp_minmax stmt.end_time)
    (hsome : st.timestamp_minmax ≠ none) :
    StInv (appendStmt st stmt) := by
  obtain ⟨h1, h2, h3, h4⟩ := hinv
  refine ⟨?_, ?_, ?_, ?_⟩
  · intro pe hpe s hs
    have hmem := appendStmt_mem st stmt pe hpe s hs
    have hgoal : pidKnown st s.pid ∧ inSpan st.timestamp_minmax s.end_time := by
      rcases hmem with ⟨pe0, hpe0, hs0⟩ | rfl
      · exact h1 pe0 hpe0 s hs0
      · exact ⟨hpid, hspan⟩
    refine ⟨?_, ?_⟩
    · show (List.lookup s.pid (appendStmt st stmt).pids_by_first_seen).isSome = true
      rw [appendStmt_pids]
      exact hgoal.1
    · show inSpan (appendStmt st stmt).timestamp_minmax s.end_time
      rw [appendStmt_minmax]
      exact hgoal.2
  · intro e he
    rw [appendStmt_events] at he
    obtain ⟨hk, hrel, hsp⟩ := h2 e he
    refine ⟨?_, ?_, ?_⟩
    · show (List.lookup e.pid (appendStmt st stmt).pids_by_first_seen).isSome = true
      rw [appendStmt_pids]
      exact hk
    · intro q hq
      show (List.lookup q (appendStmt st stmt).pids_by_first_seen).isSome = true
      rw [appendStmt_pids]
      exact hrel q hq
    · show inSpan (appendStmt st stmt).timestamp_minmax e.time
      rw [appendStmt_minmax]
      exact hsp
  · rw [appendStmt_pids]
    exact h3
  · intro hmm
    rw [appendStmt_minmax] at hmm
    exact absurd hmm hsome

lemma create_statement_fields (ctx : LogPrefixInfo) (e : DurationLogEntry) (stmt : Statement)
    (h : create_statement ctx e = .ok stmt) :
    stmt.pid = ctx.pid ∧ stmt.end_time = ctx.timestamp := by
  unfold create_statement at h
  split at h
  · exact absurd h (by simp)
  · rw [Except.ok.injEq] at h
    subst h
    exact ⟨rfl, rfl⟩

lemma StInv_handle_duration (context : LogPrefixInfo) (core : Str) (st st' : ParseState)
    (hinv : StInv st) (hspan : inSpan st.timestamp_minmax context.timestamp)
    (hsome : st.timestamp_minmax ≠ none)
    (h : handle_duration context core st = .ok st') : StInv st' := by
  unfold handle_duration at h
  cases hp : parse_duration_log_line core with
  | error e => rw [hp, except_bind_err] at h; exact absurd h (by simp)
  | ok parsed =>
      rw [hp, except_bind_ok] at h
      cases hcs : create_statement context parsed with
      | error e => rw [hcs, except_bind_err] at h; exact absurd h (by simp)
      | ok stmt =>
          rw [hcs, except_bind_ok] at h
          obtain ⟨hsp, hse⟩ := create_statement_fields context parsed stmt hcs
          split at h
          · exact absurd h (by simp)
          · rw [Except.ok.injEq] at h
            subst h
            have hinv3 := StInv_saw st stmt.pid stmt.start_time hinv
            refine StInv_appendStmt _ stmt hinv3 ?_ ?_ ?_
            · exact (saw_lookup_isSome st stmt.pid stmt.start_time stmt.pid).mpr (Or.inl rfl)
            · show inSpan (saw_pid_at st stmt.pid stmt.start_time).timestamp_minmax stmt.end_time
              rw [saw_minmax, hse]
              exact hspan
            · show (saw_pid_at st stmt.pid stmt.start_time).timestamp_minmax ≠ none
              rw [saw_minmax]
              exact hsome

lemma StInv_handle_phl (context : LogPrefixInfo) (core : Str) (st st' : ParseState)
    (hinv : StInv st) (hpid : pidKnown st context.pid)
    (hspan : inSpan st.timestamp_minmax context.timestamp)
    (hsome : st.timestamp_minmax ≠ none)
    (h : handle_process_holding_lock context core st = .ok st') : StInv st' := by
  unfold handle_process_holding_lock at h
  cases hpl : parse_holding_lock_log_line core with
  | error e => rw [hpl, except_bind_err] at h; exact absurd h (by simp)
  | ok entry =>
      rw [hpl, except_bind_ok] at h
      rw [Except.ok.injEq] at h
      subst h
      have hinv4 : StInv ((entry.wait_queue_pid.foldl
          (fun s p => saw_pid_at s p context.timestamp)
          (saw_pid_at st entry.holding_lock_pid context.timestamp))) :=
        StInv_foldlSaw _ _ _ (StInv_saw st entry.holding_lock_pid context.timestamp hinv)
      refine StInv_append_event _ _ hinv4 ?_ ?_ ?_ ?_
      · exact (foldlSaw_lookup _ _ _ _).mpr (Or.inr
          ((saw_lookup_isSome _ _ _ _).mpr (Or.inr hpid)))
      · intro q hq
        rcases List.mem_append.mp hq with hq1 | hq2
        · rw [List.mem_singleton] at hq1
          subst hq1
          exact (foldlSaw_lookup _ _ _ _).mpr (Or.inr
            ((saw_lookup_isSome _ _ _ _).mpr (Or.inl rfl)))
        · have hqm : q ∈ entry.wait_queue_pid := List.mem_of_mem_filter hq2
          exact (foldlSaw_lookup _ _ _ _).mpr (Or.inl hqm)
      · show inSpan ((entry.wait_queue_pid.foldl
            (fun s p => saw_pid_at s p context.timestamp)
            (saw_pid_at st entry.holding_lock_pid context.timestamp))).timestamp_minmax
            context.timestamp
        rw [foldlSaw_minmax, saw_minmax]
        exact hspan
      · show ((entry.wait_queue_pid.foldl
            (fun s p => saw_pid_at s p context.timestamp)
            (saw_pid_at st entry.holding_lock_pid context.timestamp))).timestamp_minmax ≠ none
        rw [foldlSaw_minmax, saw_minmax]
        exact hsome

lemma try_parse_core_inv (k : MarkerKind) (context : LogPrefixInfo) (core : Str)
    (st st' : ParseState) (hinv : StInv st)
    (h : runHandler k context core
        (saw_pid_at
          { st with timestamp_minmax := widenMM st.timestamp_minmax context.timestamp }
          context.pid context.timestamp) = .ok st') :
    StInv st' := by
  have hinv1 := StInv_widen st context.timestamp hinv
  have hinv2 := StInv_saw _ context.pid context.timestamp hinv1
  have hpid : pidKnown
      (saw_pid_at
        { st with timestamp_minmax := widenMM st.timestamp_minmax context.timestamp }
        context.pid context.timestamp) context.pid :=
    (saw_lookup_isSome _ _ _ _).mpr (Or.inl rfl)
  have hspan : inSpan
      (saw_pid_at
        { st with timestamp_minmax := widenMM st.timestamp_minmax context.timestamp }
        context.pid context.timestamp).timestamp_minmax context.timestamp := by
    rw [saw_minmax]
    exact inSpan_widen_new st.timestamp_minmax context.timestamp
  have hsome : (saw_pid_at
      { st with timestamp_minmax := widenMM st.timestamp_minmax context.timestamp }
      context.pid context.timestamp).timestamp_minmax ≠ none := by
    rw [saw_minmax]
    exact widenMM_ne_none _ _
  cases k with
  | duration => exact StInv_handle_duration context core _ st' hinv2 hspan hsome h
  | processHoldingLock => exact StInv_handle_phl context core _ st' hinv2 hpid hspan hsome h
  | disconnection =>
      have h2 : (Except.ok { saw_pid_at
          { st with timestamp_minmax := widenMM st.timestamp_minmax context.timestamp }
          context.pid context.timestamp with
            events := (saw_pid_at
              { st with timestamp_minmax := widenMM st.timestamp_minmax context.timestamp }
              context.pid context.timestamp).events ++ [mkSimpleEvent .disconnect context] } :
          Except PyErr ParseState) = .ok st' := h
      rw [Except.ok.injEq] at h2
      subst h2
      exact StInv_append_event _ _ hinv2 hpid (by intro q hq; exact absurd hq (by simp [mkSimpleEvent]))
        hspan hsome
  | connectionAuthorized =>
      have h2 : (Except.ok { saw_pid_at
          { st with timestamp_minmax := widenMM st.timestamp_minmax context.timestamp }
          context.pid context.timestamp with
            events := (saw_pid_at
              { st with timestamp_minmax := widenMM st.timestamp_minmax context.timestamp }
              context.pid context.timestamp).events ++ [mkSimpleEvent .authorized context] } :
          Except PyErr ParseState) = .ok st' := h
      rw [Except.ok.injEq] at h2
      subst h2
      exact StInv_append_event _ _ hinv2 hpid (by intro q hq; exact absurd hq (by simp [mkSimpleEvent]))
        hspan hsome
  | deadlockDetected =>
      have h2 : (Except.ok { saw_pid_at
          { st with timestamp_minmax := widenMM st.timestamp_minmax context.timestamp }
          context.pid context.timestamp with
            events := (saw_pid_at
              { st with timestamp_minmax := widenMM st.timestamp_minmax context.timestamp }
              context.pid context.timestamp).events ++ [mkSimpleEvent .deadlock context] } :
          Except PyErr ParseState) = .ok st' := h
      rw [Except.ok.injEq] at h2
      subst h2
      exact StInv_append_event _ _ hinv2 hpid (by intro q hq; exact absurd hq (by simp [mkSimpleEvent]))
        hspan hsome
  | automaticAnalyze =>
      have h2 : (Except.ok { saw_pid_at
          { st with timestamp_minmax := widenMM st.timestamp_minmax context.timestamp }
          context.pid context.timestamp with
            events := (saw_pid_at
              { st with timestamp_minmax := widenMM st.timestamp_minmax context.timestamp }
              context.pid context.timestamp).events ++ [mkDescribedEvent .analyze context core] } :
          Except PyErr ParseState) = .ok st' := h
      rw [Except.ok.injEq] at h2
      subst h2
      exact StInv_append_event _ _ hinv2 hpid (by intro q hq; exact absurd hq (by simp [mkDescribedEvent]))
        hspan hsome
  | automaticVacuum =>
      have h2 : (Except.ok { saw_pid_at
          { st with timestamp_minmax := widenMM st.timestamp_minmax context.timestamp }
          context.pid context.timestamp with
            events := (saw_pid_at
              { st with timestamp_minmax := widenMM st.timestamp_minmax context.timestamp }
              context.pid context.timestamp).events ++ [mkDescribedEvent .vacuum context core] } :
          Except PyErr ParseState) = .ok st' := h
      rw [Except.ok.injEq] at h2
      subst h2
      exact StInv_append_event _ _ hinv2 hpid (by intro q hq; exact absurd hq (by simp [mkDescribedEvent]))
        hspan hsome

lemma try_parse_inv (ms : List Matcher) (l : LogLine) (st st' : ParseState)
    (hinv : StInv st) (h : try_parse ms l st = .ok st') : StInv st' := by
  unfold try_parse at h
  split at h
  · rw [Except.ok.injEq] at h
    subst h
    exact hinv
  case h_2 k pre core heq =>
      cases hctx : parseLogPrefixFn pre ms with
      | error e => rw [hctx, except_bind_err] at h; exact absurd h (by simp)
      | ok ctx0 =>
          rw [hctx, except_bind_ok] at h
          cases hts : l.timestamp with
          | none =>
              rw [hts] at h
              have h2 : runHandler k ctx0 core
                  (saw_pid_at
                    { st with timestamp_minmax := widenMM st.timestamp_minmax ctx0.timestamp }
                    ctx0.pid ctx0.timestamp) = .ok st' := h
              exact try_parse_core_inv k ctx0 core st st' hinv h2
          | some t =>
              rw [hts] at h
              have h2 : runHandler k { ctx0 with timestamp := t } core
                  (saw_pid_at
                    { st with timestamp_minmax :=
                        widenMM st.timestamp_minmax ({ ctx0 with timestamp := t } : LogPrefixInfo).timestamp }
                    ({ ctx0 with timestamp := t } : LogPrefixInfo).pid
                    ({ ctx0 with timestamp := t } : LogPrefixInfo).timestamp) = .ok st' := h
              exact try_parse_core_inv k { ctx0 with timestamp := t } core st st' hinv h2

lemma runLogLines_inv (ms : List Matcher) : ∀ (lines : List LogLine) (i : ℕ)
    (st st' : ParseState), StInv st → runLogLines ms lines i st = .ok st' → StInv st' := by
  intro lines
  induction lines with
  | nil =>
      intro i st st' hinv h
      have h2 : (Except.ok st : Except PyErr ParseState) = .ok st' := h
      rw [Except.ok.injEq] at h2
      subst h2
      exact hinv
  | cons l rest ih =>
      intro i st st' hinv h
      unfold runLogLines at h
      split at h
      case h_1 st2 heq => exact ih _ _ _ (try_parse_inv ms l st st2 hinv heq) h
      case h_2 e heq => exact absurd h (by simp)

lemma StInv_init : StInv ({} : ParseState) := by
  refine ⟨?_, ?_, ?_, ?_⟩
  · intro pe hpe
    exact absurd hpe (List.not_mem_nil pe)
  · intro e he
    exact absurd he (List.not_mem_nil e)
  · show (List.map Prod.fst []).Nodup
    simp
  · intro _
    exact ⟨rfl, rfl⟩

/-- C2 (amended).  For every successfully ingested input: every pid of
a Statement or Event — the statement's pid, the event's pid, and every
pid in the event's primary and secondary related-pid lists — occurs in
`Model.processes` exactly once; every Event timestamp and every
Statement end timestamp lies within `[start_time, end_time]`.  (A
statement's start timestamp, being the end timestamp minus the
duration, can precede `Model.start_time` — see the counterexample.) -/
theorem C2_pid_uniqueness_and_span (lines : List LogLine) (ms : List Matcher)
    (model : Model) (h : parse_postgres_lines lines ms = .ok model) :
    (∀ s ∈ model.statements,
        (model.processes.map Process.pid).count s.pid = 1 ∧
        model.start_time.micros ≤ s.end_time.micros ∧
        s.end_time.micros ≤ model.end_time.micros) ∧
    (∀ e ∈ model.events,
        (model.processes.map Process.pid).count e.pid = 1 ∧
        (∀ q ∈ e.primary_related_pids ++ e.secondary_related_pids,
            (model.processes.map Process.pid).count q = 1) ∧
        model.start_time.micros ≤ e.time.micros ∧
        e.time.micros ≤ model.end_time.micros) := by
  unfold parse_postgres_lines at h
  cases hr : runLogLines ms lines 1 {} with
  | error e => rw [hr, except_bind_err] at h; exact absurd h (by simp)
  | ok stf =>
      rw [hr, except_bind_ok] at h
      obtain ⟨h1, h2, h3, _⟩ := runLogLines_inv ms lines 1 {} stf StInv_init hr
      split at h
      · exact absurd h (by simp)
      case h_2 t0 t1 hmm =>
          rw [Except.ok.injEq] at h
          have hstmts : model.statements = stf.stmts_by_process.flatMap (·.2) := by
            rw [← h]
          have hevents : model.events = stf.events := by rw [← h]
          have hprocs : model.processes = stf.pids_by_first_seen.map fun p => ⟨p.1, p.2⟩ := by
            rw [← h]
          have hstart : model.start_time = t0 := by rw [← h]
          have hend : model.end_time = t1 := by rw [← h]
          have hkeys : model.processes.map Process.pid = stf.pids_by_first_seen.map Prod.fst := by
            rw [hprocs, List.map_map]
            rfl
          have hcount : ∀ q : ℤ, pidKnown stf q →
              (model.processes.map Process.pid).count q = 1 := by
            intro q hq
            rw [hkeys]
            exact List.count_eq_one_of_mem h3 ((lookup_isSome_iff_mem q _).mp hq)
          constructor
          · intro s hs
            rw [hstmts] at hs
            obtain ⟨pe, hpe, hsin⟩ := List.mem_flatMap.mp hs
            obtain ⟨hk, hsp⟩ := h1 pe hpe s hsin
            have hb := hsp t0 t1 hmm
            rw [hstart, hend]
            exact ⟨hcount s.pid hk, hb.1, hb.2⟩
          · intro e he
            rw [hevents] at he
            obtain ⟨hk, hrel, hsp⟩ := h2 e he
            have hb := hsp t0 t1 hmm
            rw [hstart, hend]
            exact ⟨hcount e.pid hk, fun q hq => hcount q (hrel q hq), hb.1, hb.2⟩

/-- C2 witness: a single duration record, ingested with the built-in
matchers, satisfies the amended claim. -/
theorem C2_witness :
    parse_postgres_lines cexDurationLines [] = .ok cexDurationModel ∧
    ((∀ s ∈ cexDurationModel.statements,
        (cexDurationModel.processes.map Process.pid).count s.pid = 1 ∧
        cexDurationModel.start_time.micros ≤ s.end_time.micros ∧
        s.end_time.micros ≤ cexDurationModel.end_time.micros) ∧
      (∀ e ∈ cexDurationModel.events,
        (cexDurationModel.processes.map Process.pid).count e.pid = 1 ∧
        (∀ q ∈ e.primary_related_pids ++ e.secondary_related_pids,
            (cexDurationModel.processes.map Process.pid).count q = 1) ∧
        cexDurationModel.start_time.micros ≤ e.time.micros ∧
        e.time.micros ≤ cexDurationModel.end_time.micros)) :=
  ⟨rfl, C2_pid_uniqueness_and_span cexDurationLines [] cexDurationModel rfl⟩

/-- C2 counterexample: the single duration record yields one statement
whose `start_time` lies strictly before `Model.start_time`, so the
claimed bound `start_time ≤ t` fails for statement start timestamps. -/
theorem C2_counterexample :
    parse_postgres_lines cexDurationLines [] = .ok cexDurationModel ∧
    cexDurationModel.statements.length = 1 ∧
    cexDurationModel.statements.all
      (fun s => s.start_time.micros < cexDurationModel.start_time.micros) = true := by
  refine ⟨rfl, rfl, rfl⟩

end PgLupa
